import Mathlib

/-!
# Factura.JS: the invoice workspace of `js/facturador.js`

A shallow embedding of the script `js/facturador.js` and the properties of it that
the specification states.

Modelling conventions.

* A JavaScript number is a `JSNum`: `NaN`, the two infinities, or a finite value held as a
  rational (there is no negative zero).  `parseFloat` and `parseInt` round the decimal value
  they read to a double as JavaScript does (`toDouble`: nearest, ties to even, overflow to
  `Infinity`); the arithmetic of `updateSummary` on the numbers held is exact, as the
  pricing contract is stated, and its non-finite cases follow IEEE 754.
* The three module-level variables `products`, `productIdCounter`, `invoiceHistory` and the
  content of the `localStorage` key `invoiceHistoryDB` form the `State`.
* The DOM is a projection of the state and is not part of the model; a handler reads what it
  needs from its event (the form values, the row id, the cell text).  What a render can do to
  the control flow, raising an exception, is modelled.
* A text in `localStorage` is represented by what `JSON.parse` makes of it (`StoredText`),
  and `localStorage.setItem` is taken to succeed.
* `Date.now()` and `new Date().toISOString()` are inputs of `handleSaveInvoice`.
-/

namespace Factura

/-! ## JavaScript numbers -/

/-- A JavaScript number, finite values being exact rationals. -/
inductive JSNum where
  | nan
  | posInf
  | negInf
  | fin (q : ℚ)
  deriving DecidableEq

namespace JSNum

/-- The JavaScript `a + b` on numbers. -/
def add : JSNum → JSNum → JSNum
  | nan, _ => nan
  | _, nan => nan
  | posInf, negInf => nan
  | negInf, posInf => nan
  | posInf, _ => posInf
  | _, posInf => posInf
  | negInf, _ => negInf
  | _, negInf => negInf
  | fin a, fin b => fin (a + b)

/-- The JavaScript unary `-a`. -/
def neg : JSNum → JSNum
  | nan => nan
  | posInf => negInf
  | negInf => posInf
  | fin a => fin (-a)

/-- The JavaScript `a - b` on numbers. -/
def sub (a b : JSNum) : JSNum := add a (neg b)

/-- The sign of an infinity times a finite factor: `NaN` when the factor is zero. -/
def infTimes (positive : Bool) (b : ℚ) : JSNum :=
  if b = 0 then nan else if (0 < b) = positive then posInf else negInf

/-- The JavaScript `a * b` on numbers. -/
def mul : JSNum → JSNum → JSNum
  | nan, _ => nan
  | _, nan => nan
  | fin a, fin b => fin (a * b)
  | posInf, fin b => infTimes true b
  | negInf, fin b => infTimes false b
  | fin a, posInf => infTimes true a
  | fin a, negInf => infTimes false a
  | posInf, posInf => posInf
  | negInf, negInf => posInf
  | posInf, negInf => negInf
  | negInf, posInf => negInf

instance : Add JSNum := ⟨add⟩
instance : Sub JSNum := ⟨sub⟩
instance : Mul JSNum := ⟨mul⟩
instance : Zero JSNum := ⟨fin 0⟩

/-- The global function `isNaN` on a number. -/
def isNaN : JSNum → Bool
  | nan => true
  | _ => false

/-- The JavaScript `a < b` on numbers (false as soon as one side is `NaN`). -/
def lt : JSNum → JSNum → Bool
  | nan, _ => false
  | _, nan => false
  | fin a, fin b => decide (a < b)
  | negInf, negInf => false
  | negInf, _ => true
  | posInf, _ => false
  | fin _, posInf => true
  | fin _, negInf => false

/-- The JavaScript `a > b` on numbers. -/
def gt (a b : JSNum) : Bool := lt b a

/-- The JavaScript `a >= b` on numbers (false as soon as one side is `NaN`). -/
def ge (a b : JSNum) : Bool := !isNaN a && !isNaN b && !lt a b

/-- A number that is neither `NaN` nor an infinity. -/
def isFinite : JSNum → Bool
  | fin _ => true
  | _ => false

end JSNum

/-! ## Strings: `trim`, `parseFloat`, `parseInt` -/

/-- The ECMAScript `WhiteSpace` and `LineTerminator` code points, which `trim` and the
number parsers strip. -/
def isWhiteSpace (c : Char) : Bool :=
  let n := c.toNat
  n = 0x09 || n = 0x0A || n = 0x0B || n = 0x0C || n = 0x0D || n = 0x20 || n = 0xA0 ||
  n = 0x1680 || (0x2000 ≤ n && n ≤ 0x200A) || n = 0x2028 || n = 0x2029 || n = 0x202F ||
  n = 0x205F || n = 0x3000 || n = 0xFEFF

/-- Strip leading white space. -/
def trimStart (cs : List Char) : List Char := cs.dropWhile isWhiteSpace

/-- Strip trailing white space. -/
def trimEnd (cs : List Char) : List Char := (cs.reverse.dropWhile isWhiteSpace).reverse

/-- The method `String.prototype.trim`. -/
def trim (s : String) : String := ⟨trimEnd (trimStart s.data)⟩

/-- A decimal digit `0`..`9`. -/
def isDecimalDigit (c : Char) : Bool := 48 ≤ c.toNat && c.toNat ≤ 57

/-- The value of a run of decimal digits. -/
def digitsValue (ds : List Char) : Nat := ds.foldl (fun acc c => 10 * acc + (c.toNat - 48)) 0

/-- The value of the `SignedInteger` at the head of the text (an optional sign, then
digits); `0` when there is no digit. -/
def signedInteger : List Char → Int
  | '+' :: ds => (digitsValue (ds.takeWhile isDecimalDigit) : Int)
  | '-' :: ds => - (digitsValue (ds.takeWhile isDecimalDigit) : Int)
  | ds => (digitsValue (ds.takeWhile isDecimalDigit) : Int)

/-- The value of an `ExponentPart` (`e` or `E`, then a `SignedInteger` with at least one
digit) at the head of the text; `0` when no well-formed exponent part is there. -/
def exponentPart : List Char → Int
  | [] => 0
  | c :: rest => if c = 'e' ∨ c = 'E' then signedInteger rest else 0

/-- The rational `m * 10 ^ e` for an integer exponent. -/
def scale10 (m : ℚ) (e : Int) : ℚ :=
  if 0 ≤ e then m * ((10 ^ e.toNat : Nat) : ℚ) else m / ((10 ^ (-e).toNat : Nat) : ℚ)

/-! ### Rounding to a double

`parseFloat` and `parseInt` return the double nearest to the decimal value they read.
ECMAScript lets an implementation replace the digits after the twentieth significant one by
zeros before rounding; the value is rounded here as it is written. -/

/-- The least `b`, from the given one on, with `n < 2 ^ 2 ^ b`; `fuel` bounds the search
and `n` itself is enough of it. -/
def bitsBound (n : Nat) : Nat → Nat → Nat
  | 0, b => b
  | fuel + 1, b => if n < 2 ^ 2 ^ b then b else bitsBound n fuel (b + 1)

/-- The largest `e` below `acc + 2 ^ b` with `2 ^ e ≤ n`, given `2 ^ acc ≤ n`: the bits
of `e` are decided from the highest one down. -/
def log2Descent (n : Nat) : Nat → Nat → Nat
  | 0, acc => acc
  | b + 1, acc =>
    if 2 ^ (acc + 2 ^ b) ≤ n then log2Descent n b (acc + 2 ^ b) else log2Descent n b acc

/-- The largest `e` with `2 ^ e ≤ n`, for `n ≥ 1`. -/
def floorLog2 (n : Nat) : Nat := log2Descent n (bitsBound n n 0) 0

/-- The rational `2 ^ e` for an integer exponent. -/
def pow2 (e : Int) : ℚ :=
  if 0 ≤ e then ((2 ^ e.toNat : Nat) : ℚ) else 1 / ((2 ^ (-e).toNat : Nat) : ℚ)

/-- The binary exponent of a positive rational `a`: the `e` with `2 ^ e ≤ a < 2 ^ (e + 1)`.
The difference of the bit lengths of numerator and denominator is `e` or `e + 1`. -/
def binaryExponent (a : ℚ) : Int :=
  let e0 : Int := (floorLog2 a.num.toNat : Int) - (floorLog2 a.den : Int)
  if a < pow2 e0 then e0 - 1 else e0

/-- The natural number nearest to a non-negative rational, a tie going to the even one. -/
def roundHalfEven (x : ℚ) : Nat :=
  let f := x.num.toNat / x.den
  let twice := 2 * (x - (f : ℚ))
  if twice < 1 then f else if 1 < twice then f + 1 else if f % 2 = 0 then f else f + 1

/-- The Number value of a real: the IEEE 754 binary64 value nearest to it, a tie going to
the even significand, `Infinity` from `2 ^ 1024` on.  The significand has 53 bits, so the
spacing of the doubles around `|q|` is `2 ^ (e - 52)`, with `e` the binary exponent and no
less than `-1022` (subnormals). -/
def toDouble (q : ℚ) : JSNum :=
  if q = 0 then JSNum.fin 0
  else
    let a := if 0 < q then q else -q
    let e := max (binaryExponent a) (-1022)
    let ulp := pow2 (e - 52)
    let r := (roundHalfEven (a / ulp) : ℚ) * ulp
    if pow2 1024 ≤ r then (if 0 < q then JSNum.posInf else JSNum.negInf)
    else JSNum.fin (if 0 < q then r else -r)

/-- The value of the longest prefix of the text that is a `StrUnsignedDecimalLiteral`
(`Infinity`, `digits`, `digits.`, `digits.digits`, `.digits`, each of the last four with an
optional exponent part), rounded to a double; `NaN` when no prefix is one. -/
def strUnsignedDecimalLiteral (cs : List Char) : JSNum :=
  if "Infinity".data.isPrefixOf cs then JSNum.posInf
  else
    let ip := cs.takeWhile isDecimalDigit
    match cs.dropWhile isDecimalDigit with
    | '.' :: r2 =>
      let fp := r2.takeWhile isDecimalDigit
      if ip = [] ∧ fp = [] then JSNum.nan
      else toDouble (scale10 ((digitsValue (ip ++ fp) : ℚ) / ((10 ^ fp.length : Nat) : ℚ))
        (exponentPart (r2.dropWhile isDecimalDigit)))
    | r1 =>
      if ip = [] then JSNum.nan
      else toDouble (scale10 (digitsValue ip : ℚ) (exponentPart r1))

/-- The value of the longest prefix of the text that is a `StrDecimalLiteral`: an optional
sign, then an unsigned literal. -/
def strDecimalLiteral : List Char → JSNum
  | '+' :: cs => strUnsignedDecimalLiteral cs
  | '-' :: cs => JSNum.neg (strUnsignedDecimalLiteral cs)
  | cs => strUnsignedDecimalLiteral cs

/-- The global function `parseFloat`: skip leading white space, then read the longest
decimal literal; `NaN` when there is none. -/
def parseFloat (s : String) : JSNum := strDecimalLiteral (trimStart s.data)

/-- The digits at the head of the text as an integer, rounded to a double; `NaN` when there is
no digit. -/
def leadingInteger (cs : List Char) : JSNum :=
  let ds := cs.takeWhile isDecimalDigit
  if ds = [] then JSNum.nan else toDouble (digitsValue ds : ℚ)

/-- The global function `parseInt` called with radix 10: skip leading white space, read an
optional sign, then the longest run of decimal digits; `NaN` when there is none. -/
def parseInt (s : String) : JSNum :=
  match trimStart s.data with
  | '+' :: cs => leadingInteger cs
  | '-' :: cs => JSNum.neg (leadingInteger cs)
  | cs => leadingInteger cs

/-! ## Products and the pricing summary -/

/-- One line of the invoice being edited: an element of the array `products`. -/
structure Product where
  id : Nat
  name : String
  price : JSNum
  quantity : JSNum
  deriving DecidableEq

/-- The object `updateSummary` returns. -/
structure Summary where
  subtotal : JSNum
  discount : JSNum
  iva : JSNum
  total : JSNum
  deriving DecidableEq

/-- The constant `DISCOUNT_RATE`, 0.05. -/
def DISCOUNT_RATE : JSNum := JSNum.fin (5 / 100)

/-- The constant `IVA_RATE`, 0.19. -/
def IVA_RATE : JSNum := JSNum.fin (19 / 100)

/-- The function `updateSummary`, on the array `products` it reads: the totals it returns
(the four text nodes it also writes are a formatted copy of them). -/
def updateSummary (products : List Product) : Summary :=
  let subtotal := products.foldl (fun acc product => acc + product.price * product.quantity) 0
  let discount := subtotal * DISCOUNT_RATE
  let baseForIva := subtotal - discount
  let iva := baseForIva * IVA_RATE
  let total := baseForIva + iva
  { subtotal := subtotal, discount := discount, iva := iva, total := total }

/-! ## Values, JSON and the storage -/

/-- A JavaScript value as `JSON.parse` can produce one or the script can build one:
the content of `invoiceHistory`.  An object is the list of its own properties. -/
inductive JSVal where
  | null
  | bool (b : Bool)
  | num (n : JSNum)
  | str (s : String)
  | arr (items : List JSVal)
  | obj (fields : List (String × JSVal))

/-- A JSON document: what a JSON text denotes.  Its numbers are finite. -/
inductive Json where
  | null
  | bool (b : Bool)
  | num (q : ℚ)
  | str (s : String)
  | arr (items : List Json)
  | obj (fields : List (String × Json))

mutual
/-- The value `JSON.parse` builds from a document. -/
def Json.toJS : Json → JSVal
  | .null => .null
  | .bool b => .bool b
  | .num q => .num (JSNum.fin q)
  | .str s => .str s
  | .arr xs => .arr (Json.toJSItems xs)
  | .obj fs => .obj (Json.toJSFields fs)
/-- The elements of an array, parsed. -/
def Json.toJSItems : List Json → List JSVal
  | [] => []
  | x :: xs => Json.toJS x :: Json.toJSItems xs
/-- The properties of an object, parsed. -/
def Json.toJSFields : List (String × Json) → List (String × JSVal)
  | [] => []
  | (k, v) :: fs => (k, Json.toJS v) :: Json.toJSFields fs
end

mutual
/-- The document `JSON.stringify` writes for a value: a number that is `NaN` or an infinity
is written `null`, everything else is written as it is. -/
def JSVal.toJson : JSVal → Json
  | .null => .null
  | .bool b => .bool b
  | .num (JSNum.fin q) => .num q
  | .num _ => .null
  | .str s => .str s
  | .arr xs => .arr (JSVal.toJsonItems xs)
  | .obj fs => .obj (JSVal.toJsonFields fs)
/-- The elements of an array, serialised. -/
def JSVal.toJsonItems : List JSVal → List Json
  | [] => []
  | x :: xs => JSVal.toJson x :: JSVal.toJsonItems xs
/-- The properties of an object, serialised. -/
def JSVal.toJsonFields : List (String × JSVal) → List (String × Json)
  | [] => []
  | (k, v) :: fs => (k, JSVal.toJson v) :: JSVal.toJsonFields fs
end

mutual
/-- Every number inside the value is finite. -/
def JSVal.allFinite : JSVal → Bool
  | .num n => n.isFinite
  | .arr xs => JSVal.allFiniteItems xs
  | .obj fs => JSVal.allFiniteFields fs
  | _ => true
/-- Every number inside the elements is finite. -/
def JSVal.allFiniteItems : List JSVal → Bool
  | [] => true
  | x :: xs => JSVal.allFinite x && JSVal.allFiniteItems xs
/-- Every number inside the properties is finite. -/
def JSVal.allFiniteFields : List (String × JSVal) → Bool
  | [] => true
  | (_, v) :: fs => JSVal.allFinite v && JSVal.allFiniteFields fs
end

/-- A string held in `localStorage`, by what `JSON.parse` makes of it. -/
inductive StoredText where
  /-- The empty string. -/
  | empty
  /-- A non-empty string that is not a JSON text. -/
  | notJson
  /-- A string that is the JSON text of a document. -/
  | json (doc : Json)

/-- The exceptions the script can meet. -/
inductive JSError where
  | syntaxError
  | typeError
  deriving DecidableEq

/-- The function `JSON.parse` on a stored string. -/
def JSON.parse : StoredText → Except JSError JSVal
  | .empty => .error .syntaxError
  | .notJson => .error .syntaxError
  | .json doc => .ok doc.toJS

/-- The function `JSON.stringify` on a value of `invoiceHistory`. -/
def JSON.stringify (v : JSVal) : StoredText := .json v.toJson

/-- The truth value of what `localStorage.getItem` returns: `null` (no such key) and the
empty string are falsy. -/
def truthy : Option StoredText → Bool
  | none => false
  | some .empty => false
  | some _ => true

/-! ## The state -/

/-- The module-level variables of the script and the content of the storage key
`invoiceHistoryDB` (`none`: the key is absent). -/
structure State where
  products : List Product
  productIdCounter : Nat
  invoiceHistory : JSVal
  storage : Option StoredText

/-- What running a piece of the script leaves: the state, and the exception that ended it
if one was raised. -/
structure Outcome where
  state : State
  raised : Option JSError

/-- The function `loadHistoryFromStorage`. -/
def loadHistoryFromStorage (s : State) : Outcome :=
  let storedHistory := s.storage
  if truthy storedHistory then
    match storedHistory with
    | some text =>
      match JSON.parse text with
      | .ok v => { state := { s with invoiceHistory := v }, raised := none }
      | .error e => { state := s, raised := some e }
    | none => { state := s, raised := none }
  else { state := s, raised := none }

/-- The function `saveHistoryToStorage`. -/
def saveHistoryToStorage (s : State) : State :=
  { s with storage := some (JSON.stringify s.invoiceHistory) }

/-! ## Rendering the history

`renderHistory` changes no variable of the script; what matters to the control flow is
whether it raises.  On a value that is not an array of invoices it can: reading a property
of `null`, spreading a value that is not iterable, or converting to a primitive an object
whose own property `toString` is not a function (every value `JSON.parse` builds is not a
function). -/

mutual
/-- Converting the value to a primitive (`ToPrimitive`, as `String(v)`, `new Date(v)` and
`Intl.NumberFormat.prototype.format(v)` do) raises a TypeError: an object that has an own
property `toString`, or an array one of whose elements raises when the array is joined. -/
def JSVal.toPrimitiveRaises : JSVal → Bool
  | .obj fs => fs.any (fun kv => kv.1 == "toString")
  | .arr xs => JSVal.joinRaises xs
  | _ => false
/-- Joining the elements (`Array.prototype.join`) raises a TypeError. -/
def JSVal.joinRaises : List JSVal → Bool
  | [] => false
  | x :: xs => JSVal.toPrimitiveRaises x || JSVal.joinRaises xs
end

/-- The property `key` of a value that is not `null`, for the keys `id`, `date` and `total`
that `renderHistory` reads: `none` is `undefined`. -/
def JSVal.prop (v : JSVal) (key : String) : Option JSVal :=
  match v with
  | .obj fs => fs.lookup key
  | _ => none

/-- Converting a property that was read raises a TypeError (`undefined` converts). -/
def conversionRaises : Option JSVal → Bool
  | none => false
  | some v => v.toPrimitiveRaises

/-- The body of the `forEach` of `renderHistory` on one element: it reads `invoice.id`,
`invoice.date` and `invoice.total` and converts them to a string, a date and a number. -/
def renderHistoryItem (invoice : JSVal) : Option JSError :=
  match invoice with
  | .null => some .typeError
  | _ =>
    if conversionRaises (invoice.prop "id") || conversionRaises (invoice.prop "date")
        || conversionRaises (invoice.prop "total") then some .typeError
    else none

/-- The function `renderHistory`: the exception it raises, if any. -/
def renderHistory (invoiceHistory : JSVal) : Option JSError :=
  match invoiceHistory with
  | .null => some .typeError
  | .arr items =>
    if items.length = 0 then none
    else items.reverse.findSome? renderHistoryItem
  | .str text =>
    if text.length = 0 then none
    else (text.data.map (fun c => JSVal.str (String.singleton c))).reverse.findSome?
      renderHistoryItem
  | .obj fs =>
    match fs.lookup "length" with
    | some (.num (JSNum.fin q)) => if q = 0 then none else some .typeError
    | _ => some .typeError
  | _ => some .typeError

/-! ## The handlers -/

/-- The test of `handleAddProduct` on the trimmed name and the two parsed numbers:
`name && !isNaN(price) && price >= 0 && !isNaN(quantity) && quantity > 0`. -/
def validProduct (name : String) (price quantity : JSNum) : Bool :=
  name != "" && !price.isNaN && price.ge 0 && !quantity.isNaN && quantity.gt 0

/-- The function `handleAddProduct`, given the values of the three inputs of the form. -/
def handleAddProduct (nameValue priceValue quantityValue : String) (s : State) : State :=
  let name := trim nameValue
  let price := parseFloat priceValue
  let quantity := parseInt quantityValue
  if validProduct name price quantity then
    let id := s.productIdCounter + 1
    { s with
      productIdCounter := id
      products := s.products ++ [{ id := id, name := name, price := price, quantity := quantity }] }
  else s

/-- The type of the event a listener of the table receives. -/
inductive EventType where
  | click
  | blur
  deriving DecidableEq

/-- The `data-field` of an editable cell, as `renderProducts` writes it. -/
inductive Field where
  | name
  | price
  | quantity
  deriving DecidableEq

/-- What `handleTableActions` reads from its event: the `data-id` of the row around the
target, already parsed (`none`: no row, or a row without `data-id`), whether the target has
the class `btn--delete`, whether it has the class `editable`, its `data-field` and its
text content. -/
structure TableEvent where
  type : EventType
  rowId : Option Nat
  isDeleteButton : Bool
  isEditable : Bool
  field : Field
  textContent : String

/-- The statement `product[field] = value` on the first product whose id is `id`
(`products.find`); nothing when there is none. -/
def assignFirst (id : Nat) (assign : Product → Product) : List Product → List Product
  | [] => []
  | p :: ps => if p.id = id then assign p :: ps else p :: assignFirst id assign ps

/-- The number an edited price or quantity cell holds: `none` when the handler rejects it
(`isNaN(value) || value < 0`). -/
def cellNumber (rawValue : String) : Option JSNum :=
  let value := parseFloat rawValue
  if value.isNaN || value.lt 0 then none else some value

/-- The function `handleTableActions`. -/
def handleTableActions (e : TableEvent) (s : State) : State :=
  match e.rowId with
  | none => s
  | some id =>
    if e.isDeleteButton then
      { s with products := s.products.filter (fun product => product.id != id) }
    else if e.isEditable && e.type == EventType.blur then
      let rawValue := trim e.textContent
      match e.field with
      | .name =>
        { s with products := assignFirst id (fun p => { p with name := rawValue }) s.products }
      | .price =>
        match cellNumber rawValue with
        | none => s
        | some value =>
          { s with products := assignFirst id (fun p => { p with price := value }) s.products }
      | .quantity =>
        match cellNumber rawValue with
        | none => s
        | some value =>
          { s with products := assignFirst id (fun p => { p with quantity := value }) s.products }
    else s

/-- A product as a value: the object literal of `handleAddProduct`. -/
def Product.toJS (p : Product) : JSVal :=
  .obj [("id", .num (JSNum.fin p.id)), ("name", .str p.name), ("price", .num p.price),
    ("quantity", .num p.quantity)]

/-- The object literal `newInvoice` of `handleSaveInvoice`; `now` is `Date.now()` and
`isoDate` is `new Date().toISOString()`. -/
def newInvoice (now : Nat) (isoDate : String) (products : List Product) (summary : Summary) :
    JSVal :=
  .obj [("id", .num (JSNum.fin now)), ("date", .str isoDate),
    ("products", .arr (products.map Product.toJS)),
    ("subtotal", .num summary.subtotal), ("discount", .num summary.discount),
    ("iva", .num summary.iva), ("total", .num summary.total)]

/-- The function `handleSaveInvoice`.  Calling `push` on a history that is not an array
raises a TypeError before anything is changed; the last render can raise once everything
is changed. -/
def handleSaveInvoice (now : Nat) (isoDate : String) (s : State) : Outcome :=
  if s.products.length = 0 then { state := s, raised := none }
  else
    let summary := updateSummary s.products
    let invoice := newInvoice now isoDate s.products summary
    match s.invoiceHistory with
    | .arr items =>
      let s1 := { s with invoiceHistory := .arr (items ++ [invoice]) }
      let s2 := saveHistoryToStorage s1
      let s3 := { s2 with products := [], productIdCounter := 0 }
      { state := s3, raised := renderHistory s3.invoiceHistory }
    | _ => { state := s, raised := some .typeError }

/-- The initialisation at the end of the script, run on the variables as declared
(`products = []`, `productIdCounter = 0`, `invoiceHistory = []`) and a given content of the
storage key: `loadHistoryFromStorage()`, then `renderAndRecalculate()`, which raises
nothing, then `renderHistory()`. -/
def startup (stored : Option StoredText) : Outcome :=
  let loaded := loadHistoryFromStorage
    { products := [], productIdCounter := 0, invoiceHistory := .arr [], storage := stored }
  match loaded.raised with
  | some e => { state := loaded.state, raised := some e }
  | none => { state := loaded.state, raised := renderHistory loaded.state.invoiceHistory }

/-! ## Runs of the handlers -/

/-- A user action on the workspace. -/
inductive Action where
  | add (nameValue priceValue quantityValue : String)
  | table (e : TableEvent)
  | save (now : Nat) (isoDate : String)

/-- The state a handler leaves when the action arrives. -/
def step (s : State) : Action → State
  | .add n p q => handleAddProduct n p q s
  | .table e => handleTableActions e s
  | .save now isoDate => (handleSaveInvoice now isoDate s).state

/-- The states the workspace reaches from an empty list and a counter at zero, whatever
the history and the storage hold at that moment. -/
inductive Reachable : State → Prop where
  | init (history : JSVal) (stored : Option StoredText) :
      Reachable { products := [], productIdCounter := 0, invoiceHistory := history,
                  storage := stored }
  | step {s : State} (a : Action) : Reachable s → Reachable (step s a)

/-- A click on the delete button of the row with the given id. -/
def deleteClick (id : Nat) : TableEvent :=
  { type := .click, rowId := some id, isDeleteButton := true, isEditable := false,
    field := .name, textContent := "" }

/-- An editable cell of the row with the given id losing the focus with the given text. -/
def cellBlur (id : Nat) (field : Field) (text : String) : TableEvent :=
  { type := .blur, rowId := some id, isDeleteButton := false, isEditable := true,
    field := field, textContent := text }

/-- Writing the history with `saveHistoryToStorage`, then reading it back with
`loadHistoryFromStorage` into a fresh, empty `invoiceHistory`. -/
def reload (history : JSVal) : Outcome :=
  let written := saveHistoryToStorage
    { products := [], productIdCounter := 0, invoiceHistory := history, storage := none }
  loadHistoryFromStorage
    { products := [], productIdCounter := 0, invoiceHistory := .arr [],
      storage := written.storage }

/-! ## The data model of a line item -/

/-- A number that is not `NaN` and is at least zero. -/
def JSNum.isNonNegative (n : JSNum) : Bool := n.ge 0

/-- A finite number that is a positive integer. -/
def JSNum.isPositiveInteger : JSNum → Bool
  | .fin q => decide (0 < q) && decide (q.den = 1)
  | _ => false

/-- The LineItem of the data model: a non-empty name, a non-negative price, a quantity that
is a positive integer. -/
def Product.isLineItem (p : Product) : Bool :=
  p.name != "" && p.price.isNonNegative && p.quantity.isPositiveInteger

/-- A product whose price and quantity are the given rationals. -/
def finiteProduct (item : Nat × String × ℚ × ℚ) : Product :=
  { id := item.1, name := item.2.1, price := JSNum.fin item.2.2.1,
    quantity := JSNum.fin item.2.2.2 }

/-- The condition the specification gives for `add` to accept: a name that is not empty
once trimmed, a price that is a finite number at least zero, a quantity that is a finite
positive integer. -/
def specAccepts (nameValue priceValue quantityValue : String) : Bool :=
  trim nameValue != "" &&
  ((parseFloat priceValue).isFinite && (parseFloat priceValue).ge 0) &&
  (parseInt quantityValue).isPositiveInteger

/-- The condition under which `handleAddProduct` accepts: a name that is not empty once
trimmed, a price that parses to `Infinity` or to a finite number at least zero, a quantity
that parses to `Infinity` (leading digits beyond the range of a double) or to a positive
integer. -/
def codeAccepts (nameValue priceValue quantityValue : String) : Prop :=
  trim nameValue ≠ "" ∧
  (parseFloat priceValue = JSNum.posInf ∨ ∃ x : ℚ, 0 ≤ x ∧ parseFloat priceValue = JSNum.fin x) ∧
  (parseInt quantityValue = JSNum.posInf ∨
    ∃ k : Nat, 0 < k ∧ parseInt quantityValue = JSNum.fin (k : ℚ))

/-- A quantity text whose digits are beyond the range of a double: `1` followed by 400
zeros. -/
def overflowingQuantity : String := String.mk ('1' :: List.replicate 400 '0')

/-- The state the script starts from when the storage key is absent. -/
def emptyState : State :=
  { products := [], productIdCounter := 0, invoiceHistory := .arr [], storage := none }

/-- A state with one product, as `handleAddProduct` leaves it after `Widget`, `10`, `2`. -/
def oneWidget : State :=
  { products := [{ id := 1, name := "Widget", price := JSNum.fin 10, quantity := JSNum.fin 2 }],
    productIdCounter := 1, invoiceHistory := .arr [], storage := none }

/-- The ids of the active list are strictly increasing in list order, each at least 1 and at
most `productIdCounter`. -/
def idsIncreasing (s : State) : Prop :=
  List.Pairwise (fun a b => a < b) (s.products.map Product.id) ∧
  ∀ i ∈ s.products.map Product.id, 1 ≤ i ∧ i ≤ s.productIdCounter

/-- An invoice of the data model: what `handleSaveInvoice` stores in the history. -/
structure Invoice where
  id : Nat
  date : String
  products : List Product
  summary : Summary

/-- The invoice as the value `handleSaveInvoice` builds for it. -/
def Invoice.toJS (i : Invoice) : JSVal := newInvoice i.id i.date i.products i.summary

/-- The state after adding `Widget`, `10`, `2` to an empty workspace with an empty history,
editing the price cell of its row to the text `Infinity`, and saving. -/
def infinitePriceState : State :=
  step (step (step emptyState (Action.add "Widget" "10" "2"))
    (Action.table (cellBlur 1 Field.price "Infinity")))
    (Action.save 1700000000000 "2023-11-14T22:13:20.000Z")

set_option exponentiation.threshold 5000

/-! ## Arithmetic of `JSNum` -/

namespace JSNum

theorem add_def (a b : JSNum) : a + b = add a b := rfl

theorem mul_def (a b : JSNum) : a * b = mul a b := rfl

theorem sub_def (a b : JSNum) : a - b = add a (neg b) := rfl

theorem zero_def : (0 : JSNum) = fin 0 := rfl

theorem add_zero_right (a : JSNum) : a + 0 = a := by
  cases a <;> simp [add_def, zero_def, add]

theorem zero_add_left (a : JSNum) : 0 + a = a := by
  cases a <;> simp [add_def, zero_def, add]

theorem add_assoc3 (a b c : JSNum) : a + b + c = a + (b + c) := by
  cases a <;> cases b <;> cases c <;> simp [add_def, add, add_assoc]

theorem mul_comm2 (a b : JSNum) : a * b = b * a := by
  cases a <;> cases b <;> simp [mul_def, mul, mul_comm]

end JSNum

theorem foldl_add_eq_sum (f : Product → JSNum) (ps : List Product) (a : JSNum) :
    ps.foldl (fun acc p => acc + f p) a = a + (ps.map f).sum := by
  induction ps generalizing a with
  | nil => simp [JSNum.add_zero_right]
  | cons p ps ih => simp [ih, JSNum.add_assoc3]

theorem subtotal_eq_sum (ps : List Product) :
    (updateSummary ps).subtotal = (ps.map (fun p => p.price * p.quantity)).sum := by
  simp [updateSummary, foldl_add_eq_sum, JSNum.zero_add_left]

theorem map_finiteProduct_sum (items : List (Nat × String × ℚ × ℚ)) :
    ((items.map finiteProduct).map (fun p => p.price * p.quantity)).sum
      = JSNum.fin ((items.map (fun i => i.2.2.1 * i.2.2.2)).sum) := by
  induction items with
  | nil => rfl
  | cons i is ih =>
    simp only [List.map_cons, List.sum_cons, ih]
    simp [finiteProduct, JSNum.mul_def, JSNum.mul, JSNum.add_def, JSNum.add]

/-- C1. `updateSummary` returns subtotal = the sum over the list of price × quantity,
discount = 0.05 × subtotal, iva = 0.19 × (subtotal − discount) and
total = subtotal − discount + iva, for every list of products; on finite prices and
quantities the four are the exact rational values; the empty list gives 0 for all four, and
the list Widget 10 × 2, Gadget 5 × 1 gives 25, 1.25, 4.5125 and 28.2625. -/
theorem updateSummary_contract :
    (∀ products : List Product,
      (updateSummary products).subtotal
          = (products.map (fun p => p.price * p.quantity)).sum ∧
      (updateSummary products).discount
          = JSNum.fin 0.05 * (updateSummary products).subtotal ∧
      (updateSummary products).iva
          = JSNum.fin 0.19 * ((updateSummary products).subtotal
              - (updateSummary products).discount) ∧
      (updateSummary products).total
          = (updateSummary products).subtotal - (updateSummary products).discount
              + (updateSummary products).iva) ∧
    (∀ items : List (Nat × String × ℚ × ℚ),
      updateSummary (items.map finiteProduct) =
        let subtotal : ℚ := (items.map (fun i => i.2.2.1 * i.2.2.2)).sum
        { subtotal := JSNum.fin subtotal,
          discount := JSNum.fin (0.05 * subtotal),
          iva := JSNum.fin (0.19 * (subtotal - 0.05 * subtotal)),
          total := JSNum.fin (subtotal - 0.05 * subtotal
            + 0.19 * (subtotal - 0.05 * subtotal)) }) ∧
    updateSummary [] = { subtotal := 0, discount := 0, iva := 0, total := 0 } ∧
    updateSummary
        [{ id := 1, name := "Widget", price := JSNum.fin 10, quantity := JSNum.fin 2 },
         { id := 2, name := "Gadget", price := JSNum.fin 5, quantity := JSNum.fin 1 }]
      = { subtotal := JSNum.fin 25, discount := JSNum.fin 1.25, iva := JSNum.fin 4.5125,
          total := JSNum.fin 28.2625 } := by
  have h5 : JSNum.fin 0.05 = DISCOUNT_RATE := by
    simp only [DISCOUNT_RATE]; norm_num
  have h19 : JSNum.fin 0.19 = IVA_RATE := by
    simp only [IVA_RATE]; norm_num
  refine ⟨fun products => ⟨subtotal_eq_sum products, ?_, ?_, rfl⟩, ?_, ?_, ?_⟩
  · rw [h5, JSNum.mul_comm2]; rfl
  · rw [h19, JSNum.mul_comm2]; rfl
  · intro items
    have hs := subtotal_eq_sum (items.map finiteProduct)
    rw [map_finiteProduct_sum] at hs
    have hu : updateSummary (items.map finiteProduct) =
        { subtotal := (updateSummary (items.map finiteProduct)).subtotal,
          discount := (updateSummary (items.map finiteProduct)).subtotal * DISCOUNT_RATE,
          iva := ((updateSummary (items.map finiteProduct)).subtotal
            - (updateSummary (items.map finiteProduct)).subtotal * DISCOUNT_RATE) * IVA_RATE,
          total := ((updateSummary (items.map finiteProduct)).subtotal
            - (updateSummary (items.map finiteProduct)).subtotal * DISCOUNT_RATE)
            + ((updateSummary (items.map finiteProduct)).subtotal
            - (updateSummary (items.map finiteProduct)).subtotal * DISCOUNT_RATE) * IVA_RATE } :=
      rfl
    rw [hu, hs]
    simp only [DISCOUNT_RATE, IVA_RATE, JSNum.mul_def, JSNum.sub_def, JSNum.add_def, JSNum.mul,
      JSNum.add, JSNum.neg]
    norm_num
    refine ⟨?_, ?_, ?_⟩ <;> ring
  · simp [updateSummary, JSNum.zero_def, JSNum.mul_def, JSNum.sub_def, JSNum.add_def, JSNum.mul,
      JSNum.add, JSNum.neg, DISCOUNT_RATE, IVA_RATE]
  · simp only [updateSummary, List.foldl, JSNum.zero_def, JSNum.mul_def, JSNum.sub_def,
      JSNum.add_def, JSNum.mul, JSNum.add, JSNum.neg, DISCOUNT_RATE, IVA_RATE]
    norm_num


/-! ## Rounding to a double, on natural numbers -/

theorem roundHalfEven_natCast (n : Nat) : roundHalfEven (n : ℚ) = n := by
  simp [roundHalfEven]

theorem toDouble_natCast (k : Nat) :
    toDouble (k : ℚ) = JSNum.posInf ∨ ∃ n : Nat, toDouble (k : ℚ) = JSNum.fin (n : ℚ) := by
  unfold toDouble
  by_cases hk : (k : ℚ) = 0
  · right
    exact ⟨0, by simp [hk]⟩
  · have hpos : (0 : ℚ) < (k : ℚ) := by
      have : k ≠ 0 := fun h => hk (by simp [h])
      exact Nat.cast_pos.mpr (Nat.pos_of_ne_zero this)
    simp only [hk, if_false, hpos, if_true]
    generalize max (binaryExponent (k : ℚ)) (-1022) = e
    by_cases he : 0 ≤ e - 52
    · have hp : pow2 (e - 52) = ((2 ^ (e - 52).toNat : Nat) : ℚ) := by simp [pow2, he]
      rw [hp]
      split
      · exact Or.inl rfl
      · right
        exact ⟨roundHalfEven ((k : ℚ) / ((2 ^ (e - 52).toNat : Nat) : ℚ)) * 2 ^ (e - 52).toNat,
          by push_cast; rfl⟩
    · have hp : pow2 (e - 52) = 1 / ((2 ^ (-(e - 52)).toNat : Nat) : ℚ) := by simp [pow2, he]
      rw [hp]
      have h2 : ((2 ^ (-(e - 52)).toNat : Nat) : ℚ) ≠ 0 := by positivity
      have hdiv : (k : ℚ) / (1 / ((2 ^ (-(e - 52)).toNat : Nat) : ℚ))
          = ((k * 2 ^ (-(e - 52)).toNat : Nat) : ℚ) := by
        push_cast
        field_simp
      rw [hdiv, roundHalfEven_natCast]
      have hr : ((k * 2 ^ (-(e - 52)).toNat : Nat) : ℚ)
          * (1 / ((2 ^ (-(e - 52)).toNat : Nat) : ℚ)) = (k : ℚ) := by
        push_cast
        field_simp
      rw [hr]
      split
      · exact Or.inl rfl
      · exact Or.inr ⟨k, rfl⟩

theorem log2Descent_le (n : Nat) (b acc : Nat) (h : 2 ^ acc ≤ n) :
    2 ^ log2Descent n b acc ≤ n := by
  induction b generalizing acc with
  | zero => exact h
  | succ b ih =>
    unfold log2Descent
    split
    · rename_i hle
      exact ih _ hle
    · exact ih _ h

theorem log2Descent_lt (n : Nat) (b acc : Nat) (h : n < 2 ^ (acc + 2 ^ b)) :
    n < 2 ^ (log2Descent n b acc + 1) := by
  induction b generalizing acc with
  | zero => simpa [log2Descent] using h
  | succ b ih =>
    unfold log2Descent
    split
    · apply ih
      have : acc + 2 ^ b + 2 ^ b = acc + 2 ^ (b + 1) := by rw [Nat.pow_succ]; omega
      rw [this]
      exact h
    · rename_i hlt
      exact ih _ (Nat.lt_of_not_le hlt)

theorem bitsBound_spec (n : Nat) (fuel b : Nat) (h : n ≤ b + fuel) :
    n < 2 ^ 2 ^ bitsBound n fuel b := by
  induction fuel generalizing b with
  | zero =>
    have h1 : b < 2 ^ b := Nat.lt_two_pow b
    have h2 : 2 ^ b < 2 ^ 2 ^ b := Nat.lt_two_pow (2 ^ b)
    simp only [bitsBound]
    omega
  | succ fuel ih =>
    unfold bitsBound
    split
    · assumption
    · exact ih (b + 1) (by omega)

/-- The function `floorLog2` is the integer binary logarithm. -/
theorem floorLog2_spec (n : Nat) (h : 1 ≤ n) :
    2 ^ floorLog2 n ≤ n ∧ n < 2 ^ (floorLog2 n + 1) := by
  refine ⟨log2Descent_le n _ 0 (by simpa using h), log2Descent_lt n _ 0 ?_⟩
  simpa using bitsBound_spec n n 0 (by omega)

/-- A natural number below `2 ^ 53` is a double: rounding leaves it as it is. -/
theorem toDouble_natCast_exact (k : Nat) (h : k < 2 ^ 53) :
    toDouble (k : ℚ) = JSNum.fin (k : ℚ) := by
  unfold toDouble
  by_cases hk : (k : ℚ) = 0
  · simp [hk]
  · have hk0 : k ≠ 0 := fun h0 => hk (by simp [h0])
    have hpos : (0 : ℚ) < (k : ℚ) := Nat.cast_pos.mpr (Nat.pos_of_ne_zero hk0)
    have hno : ¬ pow2 1024 ≤ (k : ℚ) := by
      have h1 : pow2 1024 = ((2 ^ 1024 : Nat) : ℚ) := by simp [pow2]
      rw [h1, not_le]
      have h2 : k < 2 ^ 1024 :=
        Nat.lt_of_lt_of_le h (Nat.pow_le_pow_right (by norm_num) (by norm_num))
      exact_mod_cast h2
    have hlog : floorLog2 k < 53 := by
      have h1 := (floorLog2_spec k (Nat.pos_of_ne_zero hk0)).1
      exact (Nat.pow_lt_pow_iff_right (by norm_num : 1 < 2)).mp (Nat.lt_of_le_of_lt h1 h)
    have hexp : binaryExponent (k : ℚ) ≤ 52 := by
      have h1 : floorLog2 1 = 0 := by rfl
      simp only [binaryExponent, Rat.num_natCast, Int.toNat_ofNat, Rat.den_natCast, h1]
      split <;> omega
    simp only [hk, if_false, hpos, if_true]
    have he : max (binaryExponent (k : ℚ)) (-1022) ≤ 52 := max_le hexp (by norm_num)
    generalize max (binaryExponent (k : ℚ)) (-1022) = e at he
    by_cases h0 : 0 ≤ e - 52
    · have he52 : e - 52 = 0 := by omega
      have hp : pow2 (e - 52) = 1 := by simp [pow2, he52]
      rw [hp]
      simp only [div_one, roundHalfEven_natCast, mul_one, hno, if_false]
    · have hp : pow2 (e - 52) = 1 / ((2 ^ (-(e - 52)).toNat : Nat) : ℚ) := by simp [pow2, h0]
      rw [hp]
      have h2 : ((2 ^ (-(e - 52)).toNat : Nat) : ℚ) ≠ 0 := by positivity
      have hdiv : (k : ℚ) / (1 / ((2 ^ (-(e - 52)).toNat : Nat) : ℚ))
          = ((k * 2 ^ (-(e - 52)).toNat : Nat) : ℚ) := by
        push_cast
        field_simp
      rw [hdiv, roundHalfEven_natCast]
      have hr : ((k * 2 ^ (-(e - 52)).toNat : Nat) : ℚ)
          * (1 / ((2 ^ (-(e - 52)).toNat : Nat) : ℚ)) = (k : ℚ) := by
        push_cast
        field_simp
      rw [hr]
      simp only [hno, if_false]

/-! ## `parseFloat` and trailing white space -/

theorem isDecimalDigit_of_isWhiteSpace (c : Char) (h : isWhiteSpace c = true) :
    isDecimalDigit c = false := by
  simp only [isWhiteSpace, isDecimalDigit] at *
  simp only [Bool.or_eq_true, Bool.and_eq_true, decide_eq_true_eq] at h
  simp only [Bool.and_eq_false_iff, decide_eq_false_iff_not]
  omega

theorem takeWhile_digit_append (t ws : List Char) (h : ∀ w ∈ ws, isWhiteSpace w = true) :
    (t ++ ws).takeWhile isDecimalDigit = t.takeWhile isDecimalDigit := by
  induction t with
  | nil =>
    cases ws with
    | nil => rfl
    | cons w ws =>
      simp [List.takeWhile, isDecimalDigit_of_isWhiteSpace w (h w (List.mem_cons_self _ _))]
  | cons b t ih =>
    by_cases hb : isDecimalDigit b = true
    · simp [List.takeWhile, hb, ih]
    · simp [List.takeWhile, hb]

theorem dropWhile_digit_append (t ws : List Char) (h : ∀ w ∈ ws, isWhiteSpace w = true) :
    (t ++ ws).dropWhile isDecimalDigit = t.dropWhile isDecimalDigit ++ ws := by
  induction t with
  | nil =>
    cases ws with
    | nil => rfl
    | cons w ws =>
      simp [List.dropWhile, isDecimalDigit_of_isWhiteSpace w (h w (List.mem_cons_self _ _))]
  | cons b t ih =>
    by_cases hb : isDecimalDigit b = true
    · simp [List.dropWhile, hb, ih]
    · simp [List.dropWhile, hb]

theorem signedInteger_append (t ws : List Char) (h : ∀ w ∈ ws, isWhiteSpace w = true) :
    signedInteger (t ++ ws) = signedInteger t := by
  cases t with
  | nil =>
    cases ws with
    | nil => rfl
    | cons w ws =>
      have hw := h w (List.mem_cons_self _ _)
      have h1 : w ≠ '+' := by rintro rfl; exact absurd hw (by decide)
      have h2 : w ≠ '-' := by rintro rfl; exact absurd hw (by decide)
      have hd := isDecimalDigit_of_isWhiteSpace w hw
      unfold signedInteger
      split
      · rename_i heq; simp at heq; exact absurd heq.1 h1
      · rename_i heq; simp at heq; exact absurd heq.1 h2
      · simp [List.takeWhile, hd, digitsValue]
  | cons d ds =>
    by_cases h1 : d = '+'
    · subst h1
      simp [signedInteger, takeWhile_digit_append ds ws h]
    · by_cases h2 : d = '-'
      · subst h2
        simp [signedInteger, takeWhile_digit_append ds ws h]
      · have e1 : signedInteger (d :: ds ++ ws)
            = (digitsValue ((d :: ds ++ ws).takeWhile isDecimalDigit) : Int) := by
          unfold signedInteger
          split
          · rename_i heq; simp at heq; exact absurd heq.1 h1
          · rename_i heq; simp at heq; exact absurd heq.1 h2
          · rfl
        have e2 : signedInteger (d :: ds)
            = (digitsValue ((d :: ds).takeWhile isDecimalDigit) : Int) := by
          unfold signedInteger
          split
          · rename_i heq; simp at heq; exact absurd heq.1 h1
          · rename_i heq; simp at heq; exact absurd heq.1 h2
          · rfl
        rw [e1, e2, takeWhile_digit_append (d :: ds) ws h]

theorem exponentPart_append (t ws : List Char) (h : ∀ w ∈ ws, isWhiteSpace w = true) :
    exponentPart (t ++ ws) = exponentPart t := by
  cases t with
  | nil =>
    cases ws with
    | nil => rfl
    | cons w ws =>
      have hw := h w (List.mem_cons_self _ _)
      have h1 : w ≠ 'e' := by rintro rfl; exact absurd hw (by decide)
      have h2 : w ≠ 'E' := by rintro rfl; exact absurd hw (by decide)
      simp [exponentPart, h1, h2]
  | cons c rest =>
    simp only [List.cons_append, exponentPart, signedInteger_append rest ws h]

theorem isPrefixOf_append (p t ws : List Char) (hp : ∀ a ∈ p, isWhiteSpace a = false)
    (h : ∀ w ∈ ws, isWhiteSpace w = true) :
    p.isPrefixOf (t ++ ws) = p.isPrefixOf t := by
  induction p generalizing t with
  | nil => simp [List.isPrefixOf]
  | cons a p ih =>
    cases t with
    | nil =>
      cases ws with
      | nil => rfl
      | cons w ws =>
        have ha := hp a (List.mem_cons_self _ _)
        have hw := h w (List.mem_cons_self _ _)
        have hne : a ≠ w := by
          rintro rfl
          rw [ha] at hw
          exact absurd hw (by decide)
        simp [List.isPrefixOf, hne]
    | cons b t =>
      show (a == b && p.isPrefixOf (t ++ ws)) = (a == b && p.isPrefixOf t)
      rw [ih t (fun x hx => hp x (List.mem_cons_of_mem _ hx))]

theorem strUnsignedDecimalLiteral_append (t ws : List Char)
    (h : ∀ w ∈ ws, isWhiteSpace w = true) :
    strUnsignedDecimalLiteral (t ++ ws) = strUnsignedDecimalLiteral t := by
  unfold strUnsignedDecimalLiteral
  rw [isPrefixOf_append _ t ws (by decide) h, takeWhile_digit_append t ws h,
    dropWhile_digit_append t ws h]
  by_cases hinf : "Infinity".data.isPrefixOf t = true
  · simp [hinf]
  · simp only [if_neg hinf]
    cases hr : t.dropWhile isDecimalDigit with
    | nil =>
      cases ws with
      | nil => rfl
      | cons w ws =>
        have hw := h w (List.mem_cons_self _ _)
        have h1 : w ≠ '.' := by rintro rfl; exact absurd hw (by decide)
        have he := exponentPart_append [] (w :: ws) h
        simp only [List.nil_append] at he ⊢
        split
        · rename_i heq; simp at heq; exact absurd heq.1 h1
        · rw [he]
    | cons c r =>
      by_cases hc : c = '.'
      · subst hc
        simp only [List.cons_append, takeWhile_digit_append r ws h,
          dropWhile_digit_append r ws h, exponentPart_append _ ws h]
      · have he := exponentPart_append (c :: r) ws h
        simp only [List.cons_append] at he ⊢
        split
        · rename_i heq; simp at heq; exact absurd heq.1 hc
        · split <;> split <;>
            first
            | (rename_i heq; simp at heq; exact absurd heq.1 hc)
            | rw [he]
            | rfl

theorem strDecimalLiteral_append (t ws : List Char) (h : ∀ w ∈ ws, isWhiteSpace w = true) :
    strDecimalLiteral (t ++ ws) = strDecimalLiteral t := by
  cases t with
  | nil =>
    cases ws with
    | nil => rfl
    | cons w ws =>
      have hw := h w (List.mem_cons_self _ _)
      have h1 : w ≠ '+' := by rintro rfl; exact absurd hw (by decide)
      have h2 : w ≠ '-' := by rintro rfl; exact absurd hw (by decide)
      have hu := strUnsignedDecimalLiteral_append [] (w :: ws) h
      simp only [List.nil_append] at hu ⊢
      unfold strDecimalLiteral
      split
      · rename_i heq; simp at heq; exact absurd heq.1 h1
      · rename_i heq; simp at heq; exact absurd heq.1 h2
      · exact hu
  | cons d ds =>
    by_cases h1 : d = '+'
    · subst h1
      simp [strDecimalLiteral, strUnsignedDecimalLiteral_append ds ws h]
    · by_cases h2 : d = '-'
      · subst h2
        simp [strDecimalLiteral, strUnsignedDecimalLiteral_append ds ws h]
      · have e1 : strDecimalLiteral (d :: ds ++ ws)
            = strUnsignedDecimalLiteral (d :: ds ++ ws) := by
          unfold strDecimalLiteral
          split
          · rename_i heq; simp at heq; exact absurd heq.1 h1
          · rename_i heq; simp at heq; exact absurd heq.1 h2
          · rfl
        have e2 : strDecimalLiteral (d :: ds) = strUnsignedDecimalLiteral (d :: ds) := by
          unfold strDecimalLiteral
          split
          · rename_i heq; simp at heq; exact absurd heq.1 h1
          · rename_i heq; simp at heq; exact absurd heq.1 h2
          · rfl
        rw [e1, e2, strUnsignedDecimalLiteral_append (d :: ds) ws h]

theorem trimEnd_append (cs : List Char) :
    ∃ ws : List Char, (∀ w ∈ ws, isWhiteSpace w = true) ∧ cs = trimEnd cs ++ ws := by
  refine ⟨(cs.reverse.takeWhile isWhiteSpace).reverse, ?_, ?_⟩
  · intro w hw
    exact List.mem_takeWhile_imp (List.mem_reverse.mp hw)
  · unfold trimEnd
    rw [← List.reverse_append, List.takeWhile_append_dropWhile, List.reverse_reverse]

theorem dropWhile_head_false (p : Char → Bool) (l : List Char) (y : Char) (r : List Char)
    (h : l.dropWhile p = y :: r) : p y = false := by
  induction l with
  | nil => simp at h
  | cons a l ih =>
    by_cases ha : p a = true
    · simp only [List.dropWhile, ha] at h
      exact ih h
    · simp only [List.dropWhile, ha, List.cons.injEq] at h
      rw [← h.1]
      simpa using ha

theorem trimStart_trimEnd_trimStart (cs : List Char) :
    trimStart (trimEnd (trimStart cs)) = trimEnd (trimStart cs) := by
  obtain ⟨ws, _, hxs⟩ := trimEnd_append (trimStart cs)
  cases hy : trimEnd (trimStart cs) with
  | nil => rfl
  | cons y ys =>
    rw [hy] at hxs
    have hhead : isWhiteSpace y = false :=
      dropWhile_head_false isWhiteSpace cs y (ys ++ ws) hxs
    simp [trimStart, List.dropWhile, hhead]

/-- Trimming a text before `parseFloat`, as the blur branch does, changes nothing. -/
theorem parseFloat_trim (text : String) : parseFloat (trim text) = parseFloat text := by
  obtain ⟨ws, hws, hxs⟩ := trimEnd_append (trimStart text.data)
  show strDecimalLiteral (trimStart (trimEnd (trimStart text.data)))
    = strDecimalLiteral (trimStart text.data)
  rw [trimStart_trimEnd_trimStart]
  conv_rhs => rw [hxs]
  rw [strDecimalLiteral_append _ ws hws]

/-! ## Adding a product -/

theorem JSNum.nonneg_iff (n : JSNum) :
    (!n.isNaN && n.ge 0) = true ↔ n = JSNum.posInf ∨ ∃ x : ℚ, 0 ≤ x ∧ n = JSNum.fin x := by
  cases n <;> simp [JSNum.isNaN, JSNum.ge, JSNum.lt, JSNum.zero_def]

theorem leadingInteger_cases (cs : List Char) :
    leadingInteger cs = JSNum.nan ∨ leadingInteger cs = JSNum.posInf ∨
      ∃ k : Nat, leadingInteger cs = JSNum.fin (k : ℚ) := by
  unfold leadingInteger
  by_cases h : cs.takeWhile isDecimalDigit = []
  · left; simp [h]
  · right
    simp only [h, if_false]
    exact toDouble_natCast _

theorem leadingInteger_shape (cs : List Char) :
    leadingInteger cs = JSNum.nan ∨ leadingInteger cs = JSNum.posInf ∨
      leadingInteger cs = JSNum.negInf ∨
      (∃ k : Nat, leadingInteger cs = JSNum.fin (k : ℚ)) ∨
      ∃ k : Nat, leadingInteger cs = JSNum.fin (-(k : ℚ)) := by
  rcases leadingInteger_cases cs with h | h | ⟨k, h⟩
  · exact Or.inl h
  · exact Or.inr (Or.inl h)
  · exact Or.inr (Or.inr (Or.inr (Or.inl ⟨k, h⟩)))

theorem neg_leadingInteger_shape (cs : List Char) :
    JSNum.neg (leadingInteger cs) = JSNum.nan ∨
      JSNum.neg (leadingInteger cs) = JSNum.posInf ∨
      JSNum.neg (leadingInteger cs) = JSNum.negInf ∨
      (∃ k : Nat, JSNum.neg (leadingInteger cs) = JSNum.fin (k : ℚ)) ∨
      ∃ k : Nat, JSNum.neg (leadingInteger cs) = JSNum.fin (-(k : ℚ)) := by
  rcases leadingInteger_cases cs with h | h | ⟨k, h⟩
  · left; simp [h, JSNum.neg]
  · right; right; left; simp [h, JSNum.neg]
  · right; right; right; right; exact ⟨k, by simp [h, JSNum.neg]⟩

/-- What `parseInt` can return: `NaN`, an infinity (digits beyond the range of a double), or
an integer. -/
theorem parseInt_cases (text : String) :
    parseInt text = JSNum.nan ∨ parseInt text = JSNum.posInf ∨ parseInt text = JSNum.negInf ∨
      (∃ k : Nat, parseInt text = JSNum.fin (k : ℚ)) ∨
      ∃ k : Nat, parseInt text = JSNum.fin (-(k : ℚ)) := by
  unfold parseInt
  split
  · exact leadingInteger_shape _
  · exact neg_leadingInteger_shape _
  · exact leadingInteger_shape _

theorem parseInt_positive_iff (text : String) :
    (!(parseInt text).isNaN && (parseInt text).gt 0) = true ↔
      (parseInt text = JSNum.posInf ∨
        ∃ k : Nat, 0 < k ∧ parseInt text = JSNum.fin (k : ℚ)) := by
  rcases parseInt_cases text with h | h | h | ⟨k, h⟩ | ⟨k, h⟩
  · simp [h, JSNum.isNaN]
  · simp [h, JSNum.isNaN, JSNum.gt, JSNum.lt, JSNum.zero_def]
  · simp [h, JSNum.isNaN, JSNum.gt, JSNum.lt, JSNum.zero_def]
  · rw [h]
    simp only [JSNum.isNaN, JSNum.gt, JSNum.lt, JSNum.zero_def, Bool.not_false, Bool.true_and,
      decide_eq_true_eq, Nat.cast_pos, JSNum.fin.injEq, Nat.cast_inj, false_or, reduceCtorEq]
    constructor
    · intro hk; exact ⟨k, hk, rfl⟩
    · rintro ⟨j, hj, rfl⟩; exact hj
  · rw [h]
    simp only [JSNum.isNaN, JSNum.gt, JSNum.lt, JSNum.zero_def, Bool.not_false, Bool.true_and,
      decide_eq_true_eq, JSNum.fin.injEq, false_or, reduceCtorEq]
    constructor
    · intro hk
      have : (0 : ℚ) ≤ (k : ℚ) := Nat.cast_nonneg k
      linarith
    · rintro ⟨j, hj, hjk⟩
      have h1 : (0 : ℚ) ≤ (k : ℚ) := Nat.cast_nonneg k
      have h2 : (0 : ℚ) < (j : ℚ) := Nat.cast_pos.mpr hj
      linarith

theorem validProduct_iff (nameValue priceValue quantityValue : String) :
    validProduct (trim nameValue) (parseFloat priceValue) (parseInt quantityValue) = true ↔
      codeAccepts nameValue priceValue quantityValue := by
  have hp := JSNum.nonneg_iff (parseFloat priceValue)
  have hq := parseInt_positive_iff quantityValue
  simp only [Bool.and_eq_true] at hp hq
  simp only [validProduct, codeAccepts, Bool.and_eq_true, bne_iff_ne, ne_eq]
  constructor
  · rintro ⟨⟨⟨⟨h1, h2⟩, h3⟩, h4⟩, h5⟩
    exact ⟨h1, hp.mp ⟨h2, h3⟩, hq.mp ⟨h4, h5⟩⟩
  · rintro ⟨h1, h2, h3⟩
    exact ⟨⟨⟨⟨h1, (hp.mpr h2).1⟩, (hp.mpr h2).2⟩, (hq.mpr h3).1⟩, (hq.mpr h3).2⟩

theorem specAccepts_codeAccepts (nameValue priceValue quantityValue : String)
    (h : specAccepts nameValue priceValue quantityValue = true) :
    codeAccepts nameValue priceValue quantityValue := by
  simp only [specAccepts, Bool.and_eq_true, bne_iff_ne, ne_eq] at h
  obtain ⟨⟨h1, h2, h3⟩, h4⟩ := h
  refine ⟨h1, ?_, ?_⟩
  · apply (JSNum.nonneg_iff _).mp
    cases hpf : parseFloat priceValue <;> simp_all [JSNum.isFinite, JSNum.isNaN]
  · apply (parseInt_positive_iff _).mp
    cases hpi : parseInt quantityValue <;>
      simp_all [JSNum.isPositiveInteger, JSNum.isNaN, JSNum.gt, JSNum.lt, JSNum.zero_def]

/-- C5, as the specification states it, fails: the name `Widget`, the price text `Infinity`
and the quantity text `1` do not meet the stated condition (the price is not finite), yet
`handleAddProduct` appends a product whose price is `Infinity` and moves the counter. -/
theorem handleAddProduct_accepts_infinite_price :
    specAccepts "Widget" "Infinity" "1" = false ∧
    (handleAddProduct "Widget" "Infinity" "1" emptyState).products
      = [{ id := 1, name := "Widget", price := JSNum.posInf, quantity := JSNum.fin 1 }] ∧
    (handleAddProduct "Widget" "Infinity" "1" emptyState).products ≠ emptyState.products ∧
    (handleAddProduct "Widget" "Infinity" "1" emptyState).productIdCounter = 1 ∧
    emptyState.productIdCounter = 0 := by
  have hp : (handleAddProduct "Widget" "Infinity" "1" emptyState).products
      = [{ id := 1, name := "Widget", price := JSNum.posInf, quantity := JSNum.fin 1 }] := by
    with_unfolding_all rfl
  refine ⟨by with_unfolding_all rfl, hp, ?_, by with_unfolding_all rfl, rfl⟩
  rw [hp]
  simp [emptyState]

set_option maxRecDepth 10000 in
/-- A second input of the same kind: the quantity text made of `1` followed by 400 zeros
parses to `Infinity`, which the stated condition excludes and `quantity > 0` accepts. -/
theorem handleAddProduct_accepts_overflowing_quantity :
    parseInt overflowingQuantity = JSNum.posInf ∧
    specAccepts "Widget" "10" overflowingQuantity = false ∧
    (handleAddProduct "Widget" "10" overflowingQuantity emptyState).products
      = [{ id := 1, name := "Widget", price := JSNum.fin 10, quantity := JSNum.posInf }] := by
  refine ⟨by with_unfolding_all rfl, by with_unfolding_all rfl, by with_unfolding_all rfl⟩

theorem handleAddProduct_rejected (s : State) (nameValue priceValue quantityValue : String)
    (h : ¬ codeAccepts nameValue priceValue quantityValue) :
    handleAddProduct nameValue priceValue quantityValue s = s := by
  have hv : validProduct (trim nameValue) (parseFloat priceValue) (parseInt quantityValue)
      = false := by
    rw [← Bool.not_eq_true]
    exact fun hv => h ((validProduct_iff _ _ _).mp hv)
  simp [handleAddProduct, hv]

theorem handleAddProduct_accepted (s : State) (nameValue priceValue quantityValue : String)
    (h : codeAccepts nameValue priceValue quantityValue) :
    handleAddProduct nameValue priceValue quantityValue s =
      { s with
        products := s.products ++
          [{ id := s.productIdCounter + 1, name := trim nameValue,
             price := parseFloat priceValue, quantity := parseInt quantityValue }]
        productIdCounter := s.productIdCounter + 1 } := by
  have hv := (validProduct_iff _ _ _).mpr h
  simp [handleAddProduct, hv]

/-- C5, amended. `handleAddProduct` leaves the product list and `productIdCounter` (the
whole state) unchanged unless the name is not empty once trimmed, the price text parses
(`parseFloat`) to a number at least zero, `Infinity` included, and the quantity text parses
(`parseInt`) to a number above zero, which is a positive integer or, for leading digits
beyond the range of a double, `Infinity`; when these hold, and so whenever the name is not
empty, the price is finite and at least zero and the quantity is a finite positive integer,
it appends one product at the end of the list, with the trimmed name and the parsed
numbers, whose id is the old counter plus one, and sets the counter to that id. -/
theorem handleAddProduct_contract (s : State) (nameValue priceValue quantityValue : String) :
    (¬ codeAccepts nameValue priceValue quantityValue →
      handleAddProduct nameValue priceValue quantityValue s = s) ∧
    (codeAccepts nameValue priceValue quantityValue →
      handleAddProduct nameValue priceValue quantityValue s =
        { s with
          products := s.products ++
            [{ id := s.productIdCounter + 1, name := trim nameValue,
               price := parseFloat priceValue, quantity := parseInt quantityValue }]
          productIdCounter := s.productIdCounter + 1 }) ∧
    (specAccepts nameValue priceValue quantityValue = true →
      codeAccepts nameValue priceValue quantityValue) :=
  ⟨handleAddProduct_rejected s nameValue priceValue quantityValue,
    handleAddProduct_accepted s nameValue priceValue quantityValue,
    specAccepts_codeAccepts nameValue priceValue quantityValue⟩

/-- C5, amended, at the inputs `Widget`, `10`, `2` (accepted) and an empty name
(rejected). -/
theorem handleAddProduct_contract_witness :
    codeAccepts "Widget" "10" "2" ∧
    handleAddProduct "Widget" "10" "2" emptyState =
      { emptyState with
        products := emptyState.products ++
          [{ id := emptyState.productIdCounter + 1, name := trim "Widget",
             price := parseFloat "10", quantity := parseInt "2" }]
        productIdCounter := emptyState.productIdCounter + 1 } ∧
    ¬ codeAccepts "" "10" "2" ∧
    handleAddProduct "" "10" "2" emptyState = emptyState :=
  have hyes : codeAccepts "Widget" "10" "2" :=
    ⟨by decide, Or.inr ⟨10, by norm_num, by with_unfolding_all rfl⟩,
      Or.inr ⟨2, by norm_num, by with_unfolding_all rfl⟩⟩
  have hno : ¬ codeAccepts "" "10" "2" := fun h => h.1 (by decide)
  ⟨hyes, (handleAddProduct_contract emptyState "Widget" "10" "2").2.1 hyes,
    hno, (handleAddProduct_contract emptyState "" "10" "2").1 hno⟩

/-! ## Inline edits -/

/-- C4. When the edited cell is a price or a quantity cell and its text does not parse to a
number or parses to a negative number, the blur branch of `handleTableActions` leaves the
whole state, so the product list, every field of every product and `productIdCounter`, as
it was; the text `-3` is such a text. -/
theorem handleTableActions_rejects_invalid_number (s : State) (id : Nat) (field : Field)
    (text : String) (hf : field = Field.price ∨ field = Field.quantity)
    (hv : parseFloat text = JSNum.nan ∨ (parseFloat text).lt 0 = true) :
    handleTableActions (cellBlur id field text) s = s ∧
    (parseFloat "-3" = JSNum.fin (-3) ∧ (JSNum.fin (-3)).lt 0 = true) := by
  have hc : cellNumber (trim text) = none := by
    unfold cellNumber
    rw [parseFloat_trim]
    rcases hv with h | h
    · simp [h, JSNum.isNaN]
    · simp [h]
  refine ⟨?_, by with_unfolding_all rfl, by with_unfolding_all rfl⟩
  rcases hf with h | h <;> subst h <;> simp [handleTableActions, cellBlur, hc]

/-- C4 at the state with one product, on the price cell and the text `-3`. -/
theorem handleTableActions_rejects_invalid_number_witness :
    (parseFloat "-3").lt 0 = true ∧
    handleTableActions (cellBlur 1 Field.price "-3") oneWidget = oneWidget :=
  ⟨by with_unfolding_all rfl,
    (handleTableActions_rejects_invalid_number oneWidget 1 Field.price "-3" (Or.inl rfl)
      (Or.inr (by with_unfolding_all rfl))).1⟩

/-! ## Saving -/

/-- C9. When the active product list is empty, `handleSaveInvoice` creates no invoice and
raises nothing: the history, the storage content, the active list and `productIdCounter`
are unchanged. -/
theorem handleSaveInvoice_empty (now : Nat) (isoDate : String) (s : State)
    (h : s.products = []) :
    handleSaveInvoice now isoDate s = { state := s, raised := none } := by
  simp [handleSaveInvoice, h]

/-- C9 at the state the script starts from. -/
theorem handleSaveInvoice_empty_witness :
    emptyState.products = [] ∧
      handleSaveInvoice 1700000000000 "2023-11-14T22:13:20.000Z" emptyState
        = { state := emptyState, raised := none } :=
  ⟨rfl, handleSaveInvoice_empty 1700000000000 "2023-11-14T22:13:20.000Z" emptyState rfl⟩

/-- C2. When the active product list is not empty (and the history is an array, `history`),
`handleSaveInvoice` leaves the active list empty and `productIdCounter` at 0, and the new
history is `history` with one invoice appended at the end, whose products are the pre-save
list in its order and whose subtotal, discount, iva and total are what `updateSummary`
computes on that list; the earlier entries are unchanged, and the storage holds the new
history. -/
theorem handleSaveInvoice_nonempty (now : Nat) (isoDate : String) (s : State)
    (history : List JSVal) (hp : s.products ≠ []) (hh : s.invoiceHistory = .arr history) :
    (handleSaveInvoice now isoDate s).state.products = [] ∧
    (handleSaveInvoice now isoDate s).state.productIdCounter = 0 ∧
    (handleSaveInvoice now isoDate s).state.invoiceHistory
      = .arr (history ++ [newInvoice now isoDate s.products (updateSummary s.products)]) ∧
    (handleSaveInvoice now isoDate s).state.storage
      = some (JSON.stringify
          (.arr (history ++ [newInvoice now isoDate s.products (updateSummary s.products)]))) ∧
    (newInvoice now isoDate s.products (updateSummary s.products)).prop "products"
      = some (.arr (s.products.map Product.toJS)) ∧
    (newInvoice now isoDate s.products (updateSummary s.products)).prop "subtotal"
      = some (.num (updateSummary s.products).subtotal) ∧
    (newInvoice now isoDate s.products (updateSummary s.products)).prop "discount"
      = some (.num (updateSummary s.products).discount) ∧
    (newInvoice now isoDate s.products (updateSummary s.products)).prop "iva"
      = some (.num (updateSummary s.products).iva) ∧
    (newInvoice now isoDate s.products (updateSummary s.products)).prop "total"
      = some (.num (updateSummary s.products).total) := by
  have hlen : ¬ s.products.length = 0 := by
    intro h0
    exact hp (List.length_eq_zero.mp h0)
  refine ⟨?_, ?_, ?_, ?_, ?_⟩
  · simp [handleSaveInvoice, hlen, hh, saveHistoryToStorage]
  · simp [handleSaveInvoice, hlen, hh, saveHistoryToStorage]
  · simp [handleSaveInvoice, hlen, hh, saveHistoryToStorage]
  · simp [handleSaveInvoice, hlen, hh, saveHistoryToStorage]
  · simp [newInvoice, JSVal.prop, List.lookup]

/-- C2 at the state with one product and an empty history. -/
theorem handleSaveInvoice_nonempty_witness :
    oneWidget.products ≠ [] ∧ oneWidget.invoiceHistory = .arr [] ∧
    (handleSaveInvoice 1700000000000 "2023-11-14T22:13:20.000Z" oneWidget).state.products = [] ∧
    (handleSaveInvoice 1700000000000 "2023-11-14T22:13:20.000Z" oneWidget).state.invoiceHistory
      = .arr ([] ++ [newInvoice 1700000000000 "2023-11-14T22:13:20.000Z" oneWidget.products
          (updateSummary oneWidget.products)]) :=
  ⟨by simp [oneWidget], rfl,
    (handleSaveInvoice_nonempty 1700000000000 "2023-11-14T22:13:20.000Z" oneWidget []
      (by simp [oneWidget]) rfl).1,
    (handleSaveInvoice_nonempty 1700000000000 "2023-11-14T22:13:20.000Z" oneWidget []
      (by simp [oneWidget]) rfl).2.2.1⟩


theorem step_history_array (s : State) (a : Action)
    (h : ∃ items, s.invoiceHistory = JSVal.arr items) :
    ∃ items, (step s a).invoiceHistory = JSVal.arr items := by
  obtain ⟨items, hi⟩ := h
  cases a with
  | add n p q =>
    refine ⟨items, ?_⟩
    simp only [step, handleAddProduct]
    split <;> exact hi
  | table e =>
    refine ⟨items, ?_⟩
    simp only [step, handleTableActions]
    repeat' split
    all_goals exact hi
  | save now isoDate =>
    by_cases hp : s.products.length = 0
    · exact ⟨items, by simp [step, handleSaveInvoice, hp, hi]⟩
    · exact ⟨items ++ [newInvoice now isoDate s.products (updateSummary s.products)],
        by simp [step, handleSaveInvoice, hp, hi, saveHistoryToStorage]⟩

/-! ## The ids of the active list -/

theorem assignFirst_ids (id : Nat) (assign : Product → Product)
    (h : ∀ p, (assign p).id = p.id) (ps : List Product) :
    (assignFirst id assign ps).map Product.id = ps.map Product.id := by
  induction ps with
  | nil => rfl
  | cons p ps ih =>
    by_cases hp : p.id = id
    · simp [assignFirst, hp, h]
    · simp [assignFirst, hp, ih]

theorem idsIncreasing_assignFirst (s : State) (id : Nat) (assign : Product → Product)
    (hid : ∀ p, (assign p).id = p.id) (h : idsIncreasing s) :
    idsIncreasing { s with products := assignFirst id assign s.products } := by
  unfold idsIncreasing at *
  dsimp only
  rw [assignFirst_ids id assign hid]
  exact h

theorem handleAddProduct_idsIncreasing (n p q : String) (s : State) (h : idsIncreasing s) :
    idsIncreasing (handleAddProduct n p q s) := by
  unfold handleAddProduct
  by_cases hv : validProduct (trim n) (parseFloat p) (parseInt q) = true
  · simp only [hv, if_true]
    obtain ⟨h1, h2⟩ := h
    unfold idsIncreasing
    dsimp only
    refine ⟨?_, ?_⟩
    · simp only [List.map_append, List.map_cons, List.map_nil]
      rw [List.pairwise_append]
      refine ⟨h1, List.pairwise_singleton _ _, ?_⟩
      intro a ha b hb
      simp only [List.mem_singleton] at hb
      have := (h2 a ha).2
      omega
    · intro i hi
      simp only [List.map_append, List.map_cons, List.map_nil, List.mem_append,
        List.mem_singleton] at hi
      rcases hi with hi | hi
      · have := h2 i hi
        omega
      · omega
  · simp only [hv]
    exact h

theorem handleTableActions_idsIncreasing (e : TableEvent) (s : State) (h : idsIncreasing s) :
    idsIncreasing (handleTableActions e s) := by
  unfold handleTableActions
  split
  · exact h
  · rename_i id _
    split
    · obtain ⟨h1, h2⟩ := h
      have hsub : List.Sublist
          ((s.products.filter (fun product => product.id != id)).map Product.id)
          (s.products.map Product.id) := List.Sublist.map _ (List.filter_sublist _)
      exact ⟨h1.sublist hsub, fun i hi => h2 i (hsub.subset hi)⟩
    · split
      · dsimp only
        split
        · exact idsIncreasing_assignFirst s id _ (fun _ => rfl) h
        · split
          · exact h
          · exact idsIncreasing_assignFirst s id _ (fun _ => rfl) h
        · split
          · exact h
          · exact idsIncreasing_assignFirst s id _ (fun _ => rfl) h
      · exact h

theorem handleSaveInvoice_idsIncreasing (now : Nat) (isoDate : String) (s : State)
    (h : idsIncreasing s) : idsIncreasing (handleSaveInvoice now isoDate s).state := by
  unfold handleSaveInvoice
  split
  · exact h
  · split
    · exact ⟨List.Pairwise.nil, by simp [saveHistoryToStorage]⟩
    · exact h

theorem reachable_idsIncreasing {s : State} (h : Reachable s) : idsIncreasing s := by
  induction h with
  | init history stored => exact ⟨List.Pairwise.nil, by simp⟩
  | step a _ ih =>
    cases a with
    | add n p q => exact handleAddProduct_idsIncreasing n p q _ ih
    | table e => exact handleTableActions_idsIncreasing e _ ih
    | save now isoDate => exact handleSaveInvoice_idsIncreasing now isoDate _ ih

theorem filter_id_length_le_one (ps : List Product)
    (h : List.Pairwise (fun a b => a < b) (ps.map Product.id)) (id : Nat) :
    (ps.filter (fun p => p.id == id)).length ≤ 1 := by
  induction ps with
  | nil => simp
  | cons p ps ih =>
    simp only [List.map_cons, List.pairwise_cons] at h
    by_cases hp : p.id = id
    · have hnone : ps.filter (fun p => p.id == id) = [] := by
        rw [List.filter_eq_nil_iff]
        intro x hx hxid
        have := h.1 x.id (List.mem_map_of_mem _ hx)
        simp only [beq_iff_eq] at hxid
        omega
      simp [List.filter_cons, hp, hnone]
    · have := ih h.2
      simp [List.filter_cons, hp, this]

theorem filter_length_split (ps : List Product) (id : Nat) :
    ps.length = (ps.filter (fun p => p.id != id)).length
      + (ps.filter (fun p => p.id == id)).length := by
  induction ps with
  | nil => rfl
  | cons p ps ih =>
    by_cases hp : p.id = id
    · simp [List.filter_cons, hp, ih]; omega
    · simp [List.filter_cons, hp, ih]; omega

theorem assignFirst_filter_ne (id : Nat) (assign : Product → Product)
    (h : ∀ p, (assign p).id = p.id) (ps : List Product) :
    (assignFirst id assign ps).filter (fun p => p.id != id)
      = ps.filter (fun p => p.id != id) := by
  induction ps with
  | nil => rfl
  | cons p ps ih =>
    by_cases hp : p.id = id
    · simp [assignFirst, hp, List.filter_cons, h]
    · simp [assignFirst, hp, List.filter_cons, ih]

theorem assignFirst_length (id : Nat) (assign : Product → Product) (ps : List Product) :
    (assignFirst id assign ps).length = ps.length := by
  induction ps with
  | nil => rfl
  | cons p ps ih =>
    by_cases hp : p.id = id
    · simp [assignFirst, hp]
    · simp [assignFirst, hp, ih]

theorem cellBlur_products (id : Nat) (field : Field) (text : String) (s : State) :
    (handleTableActions (cellBlur id field text) s).products = s.products ∨
    ∃ assign : Product → Product, (∀ p, (assign p).id = p.id) ∧
      (handleTableActions (cellBlur id field text) s).products
        = assignFirst id assign s.products := by
  cases field
  · exact Or.inr ⟨fun p => { p with name := trim text }, fun _ => rfl, rfl⟩
  · cases hc : cellNumber (trim text) with
    | none => left; simp [handleTableActions, cellBlur, hc]
    | some v =>
      right
      exact ⟨fun p => { p with price := v }, fun _ => rfl,
        by simp [handleTableActions, cellBlur, hc]⟩
  · cases hc : cellNumber (trim text) with
    | none => left; simp [handleTableActions, cellBlur, hc]
    | some v =>
      right
      exact ⟨fun p => { p with quantity := v }, fun _ => rfl,
        by simp [handleTableActions, cellBlur, hc]⟩

theorem cellBlur_others_unchanged (id : Nat) (field : Field) (text : String) (s : State) :
    (handleTableActions (cellBlur id field text) s).products.filter (fun p => p.id != id)
        = s.products.filter (fun p => p.id != id) ∧
    (handleTableActions (cellBlur id field text) s).products.length = s.products.length := by
  rcases cellBlur_products id field text s with h | ⟨assign, hid, h⟩
  · rw [h]; exact ⟨rfl, rfl⟩
  · rw [h]; exact ⟨assignFirst_filter_ne id assign hid _, assignFirst_length id assign _⟩

/-- C8. In every state reachable by add, delete, inline-edit and save actions the ids of
the active list are strictly increasing in list order (hence pairwise distinct), each is at
least 1 and at most `productIdCounter`; so at most one product carries a given id, a delete
addressed to an id removes at most one product, and an inline edit addressed to an id
leaves the length of the list and every product with another id as they were. -/
theorem reachable_ids_strictly_increasing (s : State) (h : Reachable s) :
    List.Pairwise (fun a b => a < b) (s.products.map Product.id) ∧
    (s.products.map Product.id).Nodup ∧
    (∀ p ∈ s.products, 1 ≤ p.id ∧ p.id ≤ s.productIdCounter) ∧
    (∀ id : Nat, (s.products.filter (fun p => p.id == id)).length ≤ 1) ∧
    (∀ id : Nat,
      s.products.length ≤ (handleTableActions (deleteClick id) s).products.length + 1) ∧
    (∀ (id : Nat) (field : Field) (text : String),
      (handleTableActions (cellBlur id field text) s).products.filter (fun p => p.id != id)
          = s.products.filter (fun p => p.id != id) ∧
      (handleTableActions (cellBlur id field text) s).products.length
          = s.products.length) := by
  obtain ⟨h1, h2⟩ := reachable_idsIncreasing h
  refine ⟨h1, ?_, ?_, filter_id_length_le_one _ h1, ?_,
    fun id field text => cellBlur_others_unchanged id field text s⟩
  · exact h1.imp (fun hab => Nat.ne_of_lt hab)
  · intro p hp
    exact h2 p.id (List.mem_map_of_mem _ hp)
  · intro id
    have hs := filter_length_split s.products id
    have hl := filter_id_length_le_one _ h1 id
    simp only [handleTableActions, deleteClick, if_true]
    omega

/-- C8 at the state reached by one add. -/
theorem reachable_ids_strictly_increasing_witness :
    Reachable (step emptyState (Action.add "Widget" "10" "2")) ∧
    List.Pairwise (fun a b => a < b)
      ((step emptyState (Action.add "Widget" "10" "2")).products.map Product.id) :=
  ⟨Reachable.step _ (Reachable.init (.arr []) none),
    (reachable_ids_strictly_increasing _
      (Reachable.step _ (Reachable.init (.arr []) none))).1⟩

/-- C3. In every reachable state, adding a product with `handleAddProduct` on an input it
accepts and then deleting the row that carries the id the add assigned gives back the
product list as it was before the add: the same products, in the same order, with their
ids. -/
theorem add_then_delete_restores (s : State) (h : Reachable s)
    (nameValue priceValue quantityValue : String)
    (hv : codeAccepts nameValue priceValue quantityValue) :
    (handleAddProduct nameValue priceValue quantityValue s).products.getLast?.map Product.id
      = some (handleAddProduct nameValue priceValue quantityValue s).productIdCounter ∧
    (handleTableActions
        (deleteClick (handleAddProduct nameValue priceValue quantityValue s).productIdCounter)
        (handleAddProduct nameValue priceValue quantityValue s)).products = s.products := by
  have hadd := handleAddProduct_accepted s nameValue priceValue quantityValue hv
  obtain ⟨_, h2⟩ := reachable_idsIncreasing h
  rw [hadd]
  refine ⟨by simp, ?_⟩
  simp only [handleTableActions, deleteClick, if_true]
  rw [List.filter_append]
  have hkeep : s.products.filter (fun product => product.id != s.productIdCounter + 1)
      = s.products := by
    rw [List.filter_eq_self]
    intro p hp
    have := (h2 p.id (List.mem_map_of_mem _ hp)).2
    simp only [bne_iff_ne, ne_eq]
    omega
  rw [hkeep]
  simp

/-- C3 at the state with one product, adding `Gadget`, `5`, `1`. -/
theorem add_then_delete_restores_witness :
    Reachable oneWidget ∧ codeAccepts "Gadget" "5" "1" ∧
    (handleTableActions
        (deleteClick (handleAddProduct "Gadget" "5" "1" oneWidget).productIdCounter)
        (handleAddProduct "Gadget" "5" "1" oneWidget)).products = oneWidget.products :=
  have hr : Reachable oneWidget :=
    (by with_unfolding_all rfl : step emptyState (Action.add "Widget" "10" "2") = oneWidget) ▸
      Reachable.step _ (Reachable.init (.arr []) none)
  have hv : codeAccepts "Gadget" "5" "1" :=
    ⟨by decide, Or.inr ⟨5, by norm_num, by with_unfolding_all rfl⟩,
      Or.inr ⟨1, by norm_num, by with_unfolding_all rfl⟩⟩
  ⟨hr, hv, (add_then_delete_restores oneWidget hr "Gadget" "5" "1" hv).2⟩

/-! ## The round trip through JSON -/

mutual
theorem toJson_toJS (v : JSVal) (h : v.allFinite = true) : v.toJson.toJS = v := by
  cases v with
  | null => rfl
  | bool b => rfl
  | num n =>
    cases n with
    | fin q => rfl
    | nan => simp [JSVal.allFinite, JSNum.isFinite] at h
    | posInf => simp [JSVal.allFinite, JSNum.isFinite] at h
    | negInf => simp [JSVal.allFinite, JSNum.isFinite] at h
  | str s => rfl
  | arr xs =>
    have hx : JSVal.allFiniteItems xs = true := by simpa [JSVal.allFinite] using h
    simp [JSVal.toJson, Json.toJS, toJsonItems_toJSItems xs hx]
  | obj fs =>
    have hf : JSVal.allFiniteFields fs = true := by simpa [JSVal.allFinite] using h
    simp [JSVal.toJson, Json.toJS, toJsonFields_toJSFields fs hf]
theorem toJsonItems_toJSItems (xs : List JSVal) (h : JSVal.allFiniteItems xs = true) :
    Json.toJSItems (JSVal.toJsonItems xs) = xs := by
  cases xs with
  | nil => rfl
  | cons x xs =>
    simp only [JSVal.allFiniteItems, Bool.and_eq_true] at h
    simp [JSVal.toJsonItems, Json.toJSItems, toJson_toJS x h.1, toJsonItems_toJSItems xs h.2]
theorem toJsonFields_toJSFields (fs : List (String × JSVal))
    (h : JSVal.allFiniteFields fs = true) :
    Json.toJSFields (JSVal.toJsonFields fs) = fs := by
  cases fs with
  | nil => rfl
  | cons f fs =>
    obtain ⟨k, v⟩ := f
    simp only [JSVal.allFiniteFields, Bool.and_eq_true] at h
    simp [JSVal.toJsonFields, Json.toJSFields, toJson_toJS v h.1,
      toJsonFields_toJSFields fs h.2]
end

theorem reload_eq (history : JSVal) :
    reload history =
      { state := { products := [], productIdCounter := 0,
                   invoiceHistory := history.toJson.toJS,
                   storage := some (JSON.stringify history) },
        raised := none } := by
  simp [reload, saveHistoryToStorage, loadHistoryFromStorage, JSON.stringify, JSON.parse, truthy]

/-- C10, as the specification states it, fails: the history reached from an empty
workspace by adding `Widget`, `10`, `2`, editing the price cell to `Infinity` and saving
holds an invoice whose price, subtotal and discount are `Infinity` and whose iva and total
are `NaN`; written and read back, these five numbers are `null`, so the history read is
not the history written. -/
theorem reload_loses_infinite_price :
    Reachable infinitePriceState ∧
    infinitePriceState.invoiceHistory =
      .arr [.obj [("id", .num (JSNum.fin 1700000000000)),
        ("date", .str "2023-11-14T22:13:20.000Z"),
        ("products", .arr [.obj [("id", .num (JSNum.fin 1)), ("name", .str "Widget"),
          ("price", .num JSNum.posInf), ("quantity", .num (JSNum.fin 2))]]),
        ("subtotal", .num JSNum.posInf), ("discount", .num JSNum.posInf),
        ("iva", .num JSNum.nan), ("total", .num JSNum.nan)]] ∧
    (reload infinitePriceState.invoiceHistory).state.invoiceHistory =
      .arr [.obj [("id", .num (JSNum.fin 1700000000000)),
        ("date", .str "2023-11-14T22:13:20.000Z"),
        ("products", .arr [.obj [("id", .num (JSNum.fin 1)), ("name", .str "Widget"),
          ("price", .null), ("quantity", .num (JSNum.fin 2))]]),
        ("subtotal", .null), ("discount", .null), ("iva", .null), ("total", .null)]] ∧
    (reload infinitePriceState.invoiceHistory).state.invoiceHistory
      ≠ infinitePriceState.invoiceHistory := by
  have h1 : infinitePriceState.invoiceHistory =
      .arr [.obj [("id", .num (JSNum.fin 1700000000000)),
        ("date", .str "2023-11-14T22:13:20.000Z"),
        ("products", .arr [.obj [("id", .num (JSNum.fin 1)), ("name", .str "Widget"),
          ("price", .num JSNum.posInf), ("quantity", .num (JSNum.fin 2))]]),
        ("subtotal", .num JSNum.posInf), ("discount", .num JSNum.posInf),
        ("iva", .num JSNum.nan), ("total", .num JSNum.nan)]] := by
    with_unfolding_all rfl
  have h2 : (reload infinitePriceState.invoiceHistory).state.invoiceHistory =
      .arr [.obj [("id", .num (JSNum.fin 1700000000000)),
        ("date", .str "2023-11-14T22:13:20.000Z"),
        ("products", .arr [.obj [("id", .num (JSNum.fin 1)), ("name", .str "Widget"),
          ("price", .null), ("quantity", .num (JSNum.fin 2))]]),
        ("subtotal", .null), ("discount", .null), ("iva", .null), ("total", .null)]] := by
    rw [h1]
    with_unfolding_all rfl
  refine ⟨?_, h1, h2, ?_⟩
  · exact Reachable.step _ (Reachable.step _ (Reachable.step _ (Reachable.init (.arr []) none)))
  · rw [h2, h1]
    simp

/-- C10, amended. Writing a history with `saveHistoryToStorage` and reading it back with
`loadHistoryFromStorage` into an empty `invoiceHistory` raises nothing and yields the
history with every number that is `NaN` or an infinity replaced by `null`; so for every
history in which every number is finite (as are all histories built from finite prices and
quantities) the history read equals the history written: the same invoices in the same
order, with the same id, date, products and totals. -/
theorem reload_roundtrip (history : JSVal) :
    (reload history).raised = none ∧
    (reload history).state.invoiceHistory = history.toJson.toJS ∧
    (history.allFinite = true → (reload history).state.invoiceHistory = history) := by
  rw [reload_eq]
  exact ⟨rfl, rfl, fun h => toJson_toJS history h⟩

/-- C10, amended, at the history that saving the one product Widget, 10, 2 leaves. -/
theorem reload_roundtrip_witness :
    (handleSaveInvoice 1700000000000 "2023-11-14T22:13:20.000Z" oneWidget).state.invoiceHistory
        = .arr [newInvoice 1700000000000 "2023-11-14T22:13:20.000Z" oneWidget.products
            (updateSummary oneWidget.products)] ∧
    (JSVal.arr [newInvoice 1700000000000 "2023-11-14T22:13:20.000Z" oneWidget.products
        (updateSummary oneWidget.products)]).allFinite = true ∧
    (reload (.arr [newInvoice 1700000000000 "2023-11-14T22:13:20.000Z" oneWidget.products
        (updateSummary oneWidget.products)])).state.invoiceHistory
      = .arr [newInvoice 1700000000000 "2023-11-14T22:13:20.000Z" oneWidget.products
          (updateSummary oneWidget.products)] :=
  ⟨by with_unfolding_all rfl, by with_unfolding_all rfl,
    (reload_roundtrip _).2.2 (by with_unfolding_all rfl)⟩

/-! ## Loading the history at startup -/

theorem toJSItems_toJsonItems_map (xs : List JSVal) :
    Json.toJSItems (JSVal.toJsonItems xs) = xs.map (fun v => v.toJson.toJS) := by
  induction xs with
  | nil => rfl
  | cons x xs ih => simp [JSVal.toJsonItems, Json.toJSItems, ih]

theorem renderHistoryItem_invoice (i : Invoice) :
    renderHistoryItem i.toJS.toJson.toJS = none := by
  cases hn : i.summary.total <;>
    simp [Invoice.toJS, newInvoice, JSVal.toJson, JSVal.toJsonFields, Json.toJS,
      Json.toJSFields, renderHistoryItem, JSVal.prop, List.lookup, conversionRaises,
      JSVal.toPrimitiveRaises, hn]

theorem renderHistory_invoices (invoices : List Invoice) :
    renderHistory (JSVal.arr (invoices.map Invoice.toJS)).toJson.toJS = none := by
  simp only [JSVal.toJson, Json.toJS, toJSItems_toJsonItems_map, renderHistory]
  split
  · rfl
  · rw [List.findSome?_eq_none_iff]
    intro x hx
    simp only [List.mem_reverse, List.mem_map] at hx
    obtain ⟨v, ⟨i, _, rfl⟩, rfl⟩ := hx
    exact renderHistoryItem_invoice i

/-- C6, as the specification states it, fails: when the storage key holds a string that is
not valid JSON (the text `oops`, say), `JSON.parse` raises a SyntaxError inside `loadHistoryFromStorage` and the
startup ends there, with an error; and a stored JSON text that is not an array of invoices
is not discarded: the number 5 becomes the history, on which `renderHistory` raises a
TypeError, and the array holding the number 1 becomes the history as it is. -/
theorem startup_raises_on_corrupt_storage :
    (startup (some StoredText.notJson)).raised = some JSError.syntaxError ∧
    (startup (some (StoredText.json (Json.num 5)))).raised = some JSError.typeError ∧
    (startup (some (StoredText.json (Json.num 5)))).state.invoiceHistory
      = JSVal.num (JSNum.fin 5) ∧
    (startup (some (StoredText.json (Json.arr [Json.num 1])))).state.invoiceHistory
      = JSVal.arr [JSVal.num (JSNum.fin 1)] := by
  refine ⟨rfl, rfl, rfl, rfl⟩

/-- C6, amended. When the storage key is absent or holds the empty string, the startup
raises nothing and the history is the empty array; when it holds the JSON text that
`saveHistoryToStorage` writes for a list of invoices, the startup raises nothing and the
history is the array read from that text; when it holds a string that is not valid JSON,
`loadHistoryFromStorage` raises a SyntaxError, the initial renders are not run and the
history stays the empty array; and a stored JSON text of any shape is taken as the
history as it is, the startup raising exactly when `renderHistory` raises on it. -/
theorem startup_contract :
    (startup none).raised = none ∧
    (startup none).state.invoiceHistory = JSVal.arr [] ∧
    (startup (some StoredText.empty)).raised = none ∧
    (startup (some StoredText.empty)).state.invoiceHistory = JSVal.arr [] ∧
    (∀ invoices : List Invoice,
      (startup (some (JSON.stringify (JSVal.arr (invoices.map Invoice.toJS))))).raised = none ∧
      (startup (some (JSON.stringify (JSVal.arr (invoices.map Invoice.toJS))))).state.invoiceHistory
        = (JSVal.arr (invoices.map Invoice.toJS)).toJson.toJS) ∧
    (startup (some StoredText.notJson)).raised = some JSError.syntaxError ∧
    (startup (some StoredText.notJson)).state.invoiceHistory = JSVal.arr [] ∧
    (∀ doc : Json,
      (startup (some (StoredText.json doc))).state.invoiceHistory = doc.toJS ∧
      (startup (some (StoredText.json doc))).raised = renderHistory doc.toJS) := by
  have hdoc : ∀ doc : Json,
      (startup (some (StoredText.json doc))).state.invoiceHistory = doc.toJS ∧
      (startup (some (StoredText.json doc))).raised = renderHistory doc.toJS := by
    intro doc
    simp [startup, loadHistoryFromStorage, truthy, JSON.parse]
  refine ⟨rfl, rfl, rfl, rfl, ?_, rfl, rfl, hdoc⟩
  intro invoices
  have h := hdoc (JSVal.arr (invoices.map Invoice.toJS)).toJson
  refine ⟨?_, h.1⟩
  rw [show JSON.stringify (JSVal.arr (invoices.map Invoice.toJS))
    = StoredText.json (JSVal.arr (invoices.map Invoice.toJS)).toJson from rfl, h.2]
  exact renderHistory_invoices invoices

/-! ## The data model of a line item under the handlers -/

/-- `handleAddProduct` keeps the data model unless the quantity it reads is `Infinity`. -/
theorem handleAddProduct_lineItems (n p q : String) (s : State)
    (hq : parseInt q ≠ JSNum.posInf)
    (h : ∀ x ∈ s.products, x.isLineItem = true) :
    ∀ x ∈ (handleAddProduct n p q s).products, x.isLineItem = true := by
  by_cases hv : codeAccepts n p q
  · rw [handleAddProduct_accepted s n p q hv]
    intro x hx
    simp only [List.mem_append, List.mem_singleton] at hx
    rcases hx with hx | hx
    · exact h x hx
    · obtain ⟨h1, h2, h3⟩ := hv
      rcases h3 with h3 | ⟨k, hk, hqk⟩
      · exact absurd h3 hq
      · subst hx
        have hprice : (parseFloat p).isNonNegative = true := by
          have := (JSNum.nonneg_iff (parseFloat p)).mpr h2
          simp only [Bool.and_eq_true] at this
          exact this.2
        simp [Product.isLineItem, h1, hprice, hqk, JSNum.isPositiveInteger, hk]
  · rw [handleAddProduct_rejected s n p q hv]
    exact h

theorem deleteClick_lineItems (id : Nat) (s : State)
    (h : ∀ x ∈ s.products, x.isLineItem = true) :
    ∀ x ∈ (handleTableActions (deleteClick id) s).products, x.isLineItem = true := by
  intro x hx
  simp only [handleTableActions, deleteClick, if_true] at hx
  exact h x (List.mem_of_mem_filter hx)

theorem handleSaveInvoice_lineItems (now : Nat) (isoDate : String) (s : State)
    (h : ∀ x ∈ s.products, x.isLineItem = true) :
    ∀ x ∈ (handleSaveInvoice now isoDate s).state.products, x.isLineItem = true := by
  unfold handleSaveInvoice
  split
  · exact h
  · split
    · simp [saveHistoryToStorage]
    · exact h

theorem mem_assignFirst (id : Nat) (assign : Product → Product) (ps : List Product)
    (x : Product) (hx : x ∈ assignFirst id assign ps) :
    x ∈ ps ∨ ∃ p ∈ ps, x = assign p := by
  induction ps with
  | nil => simp [assignFirst] at hx
  | cons p ps ih =>
    by_cases hp : p.id = id
    · simp only [assignFirst, hp, if_true, List.mem_cons] at hx
      rcases hx with hx | hx
      · exact Or.inr ⟨p, List.mem_cons_self _ _, hx⟩
      · exact Or.inl (List.mem_cons_of_mem _ hx)
    · simp only [assignFirst, hp, if_false, List.mem_cons] at hx
      rcases hx with hx | hx
      · exact Or.inl (hx ▸ List.mem_cons_self _ _)
      · rcases ih hx with h | ⟨q, hq, hxq⟩
        · exact Or.inl (List.mem_cons_of_mem _ h)
        · exact Or.inr ⟨q, List.mem_cons_of_mem _ hq, hxq⟩

theorem cellNumber_nonNegative (rawValue : String) (value : JSNum)
    (h : cellNumber rawValue = some value) : value.isNonNegative = true := by
  unfold cellNumber at h
  by_cases hc : ((parseFloat rawValue).isNaN || (parseFloat rawValue).lt 0) = true
  · simp [hc] at h
  · simp only [Bool.not_eq_true] at hc
    simp only [hc, Bool.false_eq_true, if_false, Option.some.injEq] at h
    subst h
    simp only [Bool.or_eq_false_iff] at hc
    simp only [JSNum.isNonNegative, JSNum.ge, hc.1, hc.2]
    rfl

theorem priceBlur_lineItems (id : Nat) (text : String) (s : State)
    (h : ∀ x ∈ s.products, x.isLineItem = true) :
    ∀ x ∈ (handleTableActions (cellBlur id Field.price text) s).products,
      x.isLineItem = true := by
  intro x hx
  simp only [handleTableActions, cellBlur] at hx
  cases hc : cellNumber (trim text) with
  | none =>
    simp only [hc] at hx
    exact h x (by simpa using hx)
  | some value =>
    simp only [hc] at hx
    have hx2 : x ∈ assignFirst id (fun p => { p with price := value }) s.products := by
      simpa using hx
    rcases mem_assignFirst _ _ _ _ hx2 with hm | ⟨p, hp, rfl⟩
    · exact h x hm
    · have hpl := h p hp
      have hv := cellNumber_nonNegative _ _ hc
      simp only [Product.isLineItem, Bool.and_eq_true] at hpl ⊢
      exact ⟨⟨hpl.1.1, hv⟩, hpl.2⟩

/-- C7 at its failing inputs. The state with the one product Widget, 10, 2 is reached by
`handleAddProduct` and meets the data model; a reachable inline edit of its name cell to the empty
text leaves a product with an empty name, and an inline edit of its quantity cell to `0`
or to `2.5` leaves a quantity that is not a positive integer: the blur branch of
`handleTableActions` does not preserve the data model of a line item. -/
theorem inline_edit_breaks_line_item :
    step emptyState (Action.add "Widget" "10" "2") = oneWidget ∧
    Reachable oneWidget ∧
    Reachable (handleTableActions (cellBlur 1 Field.name "") oneWidget) ∧
    (∀ p ∈ oneWidget.products, p.isLineItem = true) ∧
    (handleTableActions (cellBlur 1 Field.name "") oneWidget).products
      = [{ id := 1, name := "", price := JSNum.fin 10, quantity := JSNum.fin 2 }] ∧
    Product.isLineItem { id := 1, name := "", price := JSNum.fin 10, quantity := JSNum.fin 2 }
      = false ∧
    (handleTableActions (cellBlur 1 Field.quantity "0") oneWidget).products
      = [{ id := 1, name := "Widget", price := JSNum.fin 10, quantity := JSNum.fin 0 }] ∧
    Product.isLineItem
        { id := 1, name := "Widget", price := JSNum.fin 10, quantity := JSNum.fin 0 }
      = false ∧
    (handleTableActions (cellBlur 1 Field.quantity "2.5") oneWidget).products
      = [{ id := 1, name := "Widget", price := JSNum.fin 10, quantity := JSNum.fin (5 / 2) }] ∧
    Product.isLineItem
        { id := 1, name := "Widget", price := JSNum.fin 10, quantity := JSNum.fin (5 / 2) }
      = false := by
  have hw : step emptyState (Action.add "Widget" "10" "2") = oneWidget := by
    with_unfolding_all rfl
  have hr : Reachable oneWidget := hw ▸ Reachable.step _ (Reachable.init (.arr []) none)
  refine ⟨hw, hr, Reachable.step (Action.table (cellBlur 1 Field.name "")) hr, ?_,
    by with_unfolding_all rfl, by with_unfolding_all rfl,
    by with_unfolding_all rfl, by with_unfolding_all rfl, by with_unfolding_all rfl,
    by with_unfolding_all rfl⟩
  intro p hp
  simp only [oneWidget, List.mem_singleton] at hp
  subst hp
  with_unfolding_all rfl
end Factura
